import Mathlib

/-!
Shallow embedding of the bpsai-backend core (app/services.py, app/helpers.py,
app/models.py, app/routes/document.py), used to settle the frozen claims.
Python strings are modelled as List Char; integers as Nat/Int; the float
scores of the reranker as Rat (all comparisons decided by the claims are far
from the float rounding scale, see the comments at the scoring functions).
-/

namespace BpsAi

/-- View of a Lean string literal as a Python string (a list of characters). -/
def pys (s : String) : List Char := s.data

/-- Python regex class \s over ASCII, as the source uses it: space, tab,
newline, carriage return, vertical tab, form feed. -/
def pyWs (c : Char) : Bool :=
  c = ' ' || c = '\t' || c = '\n' || c = '\r' || c = '\x0b' || c = '\x0c'

/-- Python str.strip(): drop whitespace from both ends. -/
def stripL (l : List Char) : List Char :=
  ((l.dropWhile pyWs).reverse.dropWhile pyWs).reverse

/-- Python str.lower() on ASCII text. -/
def lowerL (l : List Char) : List Char := l.map Char.toLower

/-- Python str.split(sep) for a one-character separator; "".split(c) = [""]. -/
def splitOnChar (sep : Char) : List Char → List (List Char)
  | [] => [[]]
  | c :: cs =>
    let r := splitOnChar sep cs
    if c = sep then [] :: r
    else
      match r with
      | [] => [[c]]
      | h :: t => (c :: h) :: t

/-- Python sep.join(parts) for a one-character separator. -/
def joinWithChar (sep : Char) : List (List Char) → List Char
  | [] => []
  | [l] => l
  | l :: l2 :: ls => l ++ sep :: joinWithChar sep (l2 :: ls)

/-- Python sep.join(parts) for a string separator. -/
def joinWithStr (sep : List Char) : List (List Char) → List Char
  | [] => []
  | [l] => l
  | l :: l2 :: ls => l ++ sep ++ joinWithStr sep (l2 :: ls)

/-- Literal match at the head of the text (pattern, text). -/
def litAt : List Char → List Char → Bool
  | [], _ => true
  | _ :: _, [] => false
  | p :: ps, c :: cs => p = c && litAt ps cs

/-- Python "pat in s": substring occurrence test. -/
def containsL (pat : List Char) : List Char → Bool
  | [] => litAt pat []
  | c :: cs => litAt pat (c :: cs) || containsL pat cs

/-- Match a literal word, returning the rest of the text. -/
def eatLit : List Char → List Char → Option (List Char)
  | [], rest => some rest
  | _ :: _, [] => none
  | p :: ps, c :: cs => if p = c then eatLit ps cs else none

/-- Match words separated by one-or-more whitespace (regex w1\s+w2...\s+wn),
anchored at the head of the text. -/
def matchWordsFrom : List (List Char) → List Char → Bool
  | [], _ => true
  | [w], s => (eatLit w s).isSome
  | w :: w2 :: ws, s =>
    match eatLit w s with
    | none => false
    | some [] => false
    | some (c :: cs) => pyWs c && matchWordsFrom (w2 :: ws) (cs.dropWhile pyWs)

/-- re.search of w1\s+w2...\s+wn without anchors: match anywhere. -/
def searchWords (ws : List (List Char)) : List Char → Bool
  | [] => matchWordsFrom ws []
  | c :: cs => matchWordsFrom ws (c :: cs) || searchWords ws cs

/-- re.search of a pattern anchored with a leading ^\s* (no MULTILINE): the
words must appear at the start of the string after optional whitespace. -/
def startWsWords (ws : List (List Char)) (s : List Char) : Bool :=
  matchWordsFrom ws (s.dropWhile pyWs)

/-- re.search of kw\s+\d (a keyword, whitespace, then a digit), anywhere. -/
def searchKwDigit (kw : List Char) : List Char → Bool
  | [] => false
  | c :: cs =>
    (match eatLit kw (c :: cs) with
     | some (d :: ds) => pyWs d && (match ds.dropWhile pyWs with
        | e :: _ => e.isDigit
        | [] => false)
     | _ => false) || searchKwDigit kw cs

/-! ### Sliding window chunker (app/services.py, semantic_sliding_window_chunker) -/

/-- Last index (relative to the given list) whose character satisfies p. -/
def lastIdxAux (p : Char → Bool) : List Char → Option Nat
  | [] => none
  | c :: cs =>
    match lastIdxAux p cs with
    | some i => some (i + 1)
    | none => if p c then some 0 else none

/-- Python text.rfind restricted to characters satisfying p, over the slice
[s, e): the greatest absolute index in that range whose character satisfies p
(none plays the role of -1). -/
def rfindIdx (p : Char → Bool) (t : List Char) (s e : Nat) : Option Nat :=
  (lastIdxAux p ((t.drop s).take (e - s))).map (fun k => s + k)

def isPunctEnd (c : Char) : Bool := c = '.' || c = '?' || c = '!'

/-- Run-collapsing step of the normalization at the head of the chunker. -/
def squeezeSpaces : List Char → List Char
  | [] => []
  | [c] => [c]
  | c :: c2 :: cs =>
    if c = ' ' && c2 = ' ' then squeezeSpaces (c2 :: cs)
    else c :: squeezeSpaces (c2 :: cs)

/-- re.sub(r'\s+', ' ', text).strip(): whitespace characters are mapped to a
space, runs of spaces are collapsed, and both ends are stripped. -/
def normalizeWs (l : List Char) : List Char :=
  stripL (squeezeSpaces (l.map fun c => if pyWs c then ' ' else c))

/-- Start position of the next window: max(start + 1, end - overlap). -/
def swcNextStart (start e ov : Nat) : Nat := max (start + 1) (e - ov)

/-- Fallback end when no acceptable punctuation is found: the nearest space
searched backward from e0, else the hard cut at e0. -/
def swcSpaceElse (t : List Char) (start e0 : Nat) : Nat :=
  match rfindIdx (fun c => c = ' ') t start e0 with
  | some j => j
  | none => e0

/-- The chosen end of the current chunk: backward search for sentence-ending
punctuation, accepted when it keeps more than half the target size, else the
nearest space, else the hard cut at e0.  The source test
split_point > start + chunk_size * 0.5 is written 2 * i > 2 * start + csz,
which is exact for every integer chunk_size. -/
def swcChunkEnd (t : List Char) (csz : Nat) (start e0 : Nat) : Nat :=
  match rfindIdx isPunctEnd t start e0 with
  | some i => if 2 * i > 2 * start + csz then i + 1 else swcSpaceElse t start e0
  | none => swcSpaceElse t start e0

/-- The while loop of semantic_sliding_window_chunker over the normalized text
t; tlen is len(text), computed once before the loop as in the source.  The
fuel argument makes the recursion structural so that the kernel can evaluate
it; since every iteration strictly increases start (see the theorem for claim
C10), fuel = tlen - start + 1 never runs out, and the loop below is extensional
in any sufficient fuel. -/
def swcLoop (t : List Char) (tlen csz ov : Nat) : Nat → Nat → List (List Char)
  | _, 0 => []
  | start, fuel + 1 =>
    if start < tlen then
      if tlen ≤ start + csz then [t.drop start]
      else
        if stripL ((t.drop start).take (swcChunkEnd t csz start (start + csz) - start)) = [] then
          swcLoop t tlen csz ov (swcNextStart start (swcChunkEnd t csz start (start + csz)) ov) fuel
        else
          stripL ((t.drop start).take (swcChunkEnd t csz start (start + csz) - start)) ::
            swcLoop t tlen csz ov (swcNextStart start (swcChunkEnd t csz start (start + csz)) ov) fuel
    else []

/-- semantic_sliding_window_chunker (app/services.py line 672); the defaults
of the source are chunk_size = 1000, overlap = 200. -/
def semantic_sliding_window_chunker (text : List Char) (csz ov : Nat) : List (List Char) :=
  if text = [] then []
  else
    swcLoop (normalizeWs text) (normalizeWs text).length csz ov 0
      ((normalizeWs text).length + 1)

/-! ### Basic facts about the string helpers -/

lemma mem_dropWhile_of_not {c : Char} :
    ∀ {l : List Char}, c ∈ l → pyWs c = false → c ∈ l.dropWhile pyWs := by
  intro l
  induction l with
  | nil => intro h; cases h
  | cons x xs ih =>
    intro hc hws
    rw [List.dropWhile]
    cases hx : pyWs x with
    | true =>
      simp only
      rcases List.mem_cons.mp hc with rfl | h
      · rw [hx] at hws; cases hws
      · exact ih h hws
    | false =>
      simp only
      exact hc

lemma mem_stripL {c : Char} {l : List Char} (hc : c ∈ l) (hws : pyWs c = false) :
    c ∈ stripL l := by
  rw [stripL, List.mem_reverse]
  exact mem_dropWhile_of_not (List.mem_reverse.mpr (mem_dropWhile_of_not hc hws)) hws

lemma stripL_subset {c : Char} {l : List Char} (hc : c ∈ stripL l) : c ∈ l := by
  rw [stripL, List.mem_reverse] at hc
  have h1 := List.dropWhile_sublist (l := (l.dropWhile pyWs).reverse) (p := pyWs)
  have h2 := h1.mem hc
  rw [List.mem_reverse] at h2
  exact (List.dropWhile_sublist (l := l) (p := pyWs)).mem h2

lemma mem_squeezeSpaces {c : Char} : ∀ {l : List Char}, c ∈ squeezeSpaces l → c ∈ l := by
  intro l
  induction l with
  | nil => intro h; cases h
  | cons x xs ih =>
    intro hc
    match xs, hc with
    | [], hc => exact hc
    | x2 :: xs2, hc =>
      rw [squeezeSpaces] at hc
      split at hc
      · exact List.mem_cons_of_mem _ (ih hc)
      · rcases List.mem_cons.mp hc with rfl | h
        · exact List.mem_cons_self _ _
        · exact List.mem_cons_of_mem _ (ih h)

/-- Every whitespace character surviving the normalization is a plain space. -/
lemma normalizeWs_ws_eq_space {c : Char} {l : List Char}
    (hc : c ∈ normalizeWs l) (hws : pyWs c = true) : c = ' ' := by
  rw [normalizeWs] at hc
  have h1 := mem_squeezeSpaces (stripL_subset hc)
  obtain ⟨x, _, hx⟩ := List.mem_map.mp h1
  by_cases hpx : pyWs x
  · rw [if_pos hpx] at hx; exact hx.symm
  · rw [if_neg hpx] at hx
    rw [← hx] at hws
    exact absurd hws (by simpa using hpx)

/-! ### Facts about rfind and the chosen chunk end -/

lemma lastIdxAux_sound {p : Char → Bool} :
    ∀ {l : List Char} {k : Nat}, lastIdxAux p l = some k →
      ∃ hk : k < l.length, p (l.get ⟨k, hk⟩) = true := by
  intro l
  induction l with
  | nil => intro k h; exact absurd h (by simp [lastIdxAux])
  | cons c cs ih =>
    intro k h
    rw [lastIdxAux] at h
    cases hcs : lastIdxAux p cs with
    | some i =>
      rw [hcs] at h
      injection h with h'
      subst h'
      obtain ⟨hi, hp⟩ := ih hcs
      exact ⟨Nat.succ_lt_succ hi, hp⟩
    | none =>
      rw [hcs] at h
      by_cases hpc : p c
      · rw [if_pos hpc] at h
        injection h with h'
        subst h'
        exact ⟨Nat.succ_pos _, hpc⟩
      · rw [if_neg hpc] at h
        cases h

lemma lastIdxAux_eq_none {p : Char → Bool} :
    ∀ {l : List Char}, (∀ c ∈ l, p c = false) → lastIdxAux p l = none := by
  intro l
  induction l with
  | nil => intro _; rfl
  | cons c cs ih =>
    intro h
    rw [lastIdxAux, ih (fun x hx => h x (List.mem_cons_of_mem _ hx)),
      h c (List.mem_cons_self _ _)]
    rfl

lemma rfindIdx_sound {p : Char → Bool} {t : List Char} {s e j : Nat}
    (h : rfindIdx p t s e = some j) :
    s ≤ j ∧ ∃ hj : j < t.length, p (t.get ⟨j, hj⟩) = true := by
  rw [rfindIdx] at h
  cases hl : lastIdxAux p ((t.drop s).take (e - s)) with
  | none => rw [hl] at h; cases h
  | some k =>
    rw [hl] at h
    injection h with h'
    obtain ⟨hk, hp⟩ := lastIdxAux_sound hl
    have hkd : k < (t.drop s).length := lt_of_lt_of_le hk (by
      rw [List.length_take]
      exact min_le_right _ _)
    have hjt : s + k < t.length := by
      rw [List.length_drop] at hkd
      omega
    have hget : ((t.drop s).take (e - s)).get ⟨k, hk⟩ = t.get ⟨s + k, hjt⟩ := by
      simp only [List.get_eq_getElem, List.getElem_take, List.getElem_drop]
    subst h'
    exact ⟨Nat.le_add_right _ _, hjt, by rw [← hget]; exact hp⟩

lemma swcSpaceElse_cases (t : List Char) (s e0 : Nat) (hs : s + 1 ≤ e0) :
    s + 1 ≤ swcSpaceElse t s e0 ∨
      (swcSpaceElse t s e0 = s ∧ ∃ hsl : s < t.length, t.get ⟨s, hsl⟩ = ' ') := by
  rw [swcSpaceElse]
  cases hf : rfindIdx (fun c => c = ' ') t s e0 with
  | none => exact Or.inl hs
  | some j =>
    obtain ⟨hsj, hj, hp⟩ := rfindIdx_sound hf
    rcases Nat.eq_or_lt_of_le hsj with rfl | hlt
    · exact Or.inr ⟨rfl, hj, of_decide_eq_true hp⟩
    · exact Or.inl hlt

lemma swcChunkEnd_eq_none {t : List Char} {csz s e0 : Nat}
    (h : rfindIdx isPunctEnd t s e0 = none) :
    swcChunkEnd t csz s e0 = swcSpaceElse t s e0 := by
  rw [swcChunkEnd, h]

lemma swcChunkEnd_eq_some {t : List Char} {csz s e0 i : Nat}
    (h : rfindIdx isPunctEnd t s e0 = some i) :
    swcChunkEnd t csz s e0 = if 2 * i > 2 * s + csz then i + 1 else swcSpaceElse t s e0 := by
  rw [swcChunkEnd, h]

lemma swcChunkEnd_cases (t : List Char) (csz s : Nat) (hcsz : 1 ≤ csz) :
    s + 1 ≤ swcChunkEnd t csz s (s + csz) ∨
      (swcChunkEnd t csz s (s + csz) = s ∧ ∃ hsl : s < t.length, t.get ⟨s, hsl⟩ = ' ') := by
  have hse : s + 1 ≤ s + csz := by omega
  cases hf : rfindIdx isPunctEnd t s (s + csz) with
  | none =>
    rw [swcChunkEnd_eq_none hf]
    exact swcSpaceElse_cases t s (s + csz) hse
  | some i =>
    rw [swcChunkEnd_eq_some hf]
    by_cases hcond : 2 * i > 2 * s + csz
    · rw [if_pos hcond]
      left
      have := (rfindIdx_sound hf).1
      omega
    · rw [if_neg hcond]
      exact swcSpaceElse_cases t s (s + csz) hse

/-! ### Membership of characters of the text in slices -/

lemma get_mem_drop {t : List Char} {s i : Nat} (hsi : s ≤ i) (hi : i < t.length) :
    t.get ⟨i, hi⟩ ∈ t.drop s := by
  have hidx : i - s < (t.drop s).length := by
    rw [List.length_drop]; omega
  have heq : (t.drop s).get ⟨i - s, hidx⟩ = t.get ⟨i, hi⟩ := by
    simp only [List.get_eq_getElem, List.getElem_drop]
    congr 1
    omega
  rw [← heq]
  exact List.get_mem _ _ _

lemma get_mem_take_drop {t : List Char} {s e i : Nat} (hsi : s ≤ i) (hie : i < e)
    (hi : i < t.length) : t.get ⟨i, hi⟩ ∈ (t.drop s).take (e - s) := by
  have hidx : i - s < ((t.drop s).take (e - s)).length := by
    rw [List.length_take, List.length_drop]
    omega
  have heq : ((t.drop s).take (e - s)).get ⟨i - s, hidx⟩ = t.get ⟨i, hi⟩ := by
    simp only [List.get_eq_getElem, List.getElem_take, List.getElem_drop]
    congr 1
    omega
  rw [← heq]
  exact List.get_mem _ _ _

/-! ### Coverage and termination facts of the chunker loop -/

lemma swcLoop_covers {t : List Char} {csz ov : Nat} (hcsz : 1 ≤ csz)
    (hws : ∀ c ∈ t, pyWs c = true → c = ' ') :
    ∀ (fuel s i : Nat), s ≤ i → ∀ hi : i < t.length,
      t.length - s < fuel → t.get ⟨i, hi⟩ ≠ ' ' →
      ∃ c ∈ swcLoop t t.length csz ov s fuel, t.get ⟨i, hi⟩ ∈ c := by
  intro fuel
  induction fuel with
  | zero => intro s i hsi hi hf hne; omega
  | succ fuel ih =>
    intro s i hsi hi hf hne
    have hs : s < t.length := Nat.lt_of_le_of_lt hsi hi
    rw [swcLoop, if_pos hs]
    by_cases he : t.length ≤ s + csz
    · rw [if_pos he]
      exact ⟨t.drop s, List.mem_singleton_self _, get_mem_drop hsi hi⟩
    · rw [if_neg he]
      by_cases hie : i < swcChunkEnd t csz s (s + csz)
      · have hnws : pyWs (t.get ⟨i, hi⟩) = false := by
          cases hx : pyWs (t.get ⟨i, hi⟩)
          · rfl
          · exact absurd (hws _ (List.get_mem _ _ _) hx) hne
        have hmem : t.get ⟨i, hi⟩ ∈
            stripL ((t.drop s).take (swcChunkEnd t csz s (s + csz) - s)) :=
          mem_stripL (get_mem_take_drop hsi hie hi) hnws
        have hchunk : stripL ((t.drop s).take (swcChunkEnd t csz s (s + csz) - s)) ≠ [] := by
          intro h0
          rw [h0] at hmem
          cases hmem
        rw [if_neg hchunk]
        exact ⟨_, List.mem_cons_self _ _, hmem⟩
      · push_neg at hie
        have hsi1 : s + 1 ≤ i := by
          rcases swcChunkEnd_cases t csz s hcsz with h1 | ⟨h1, hsl, hsp⟩
          · omega
          · rcases Nat.eq_or_lt_of_le hsi with heq | h
            · subst heq
              exact absurd hsp hne
            · omega
        have hnext_le : swcNextStart s (swcChunkEnd t csz s (s + csz)) ov ≤ i := by
          rw [swcNextStart]
          exact max_le hsi1 (le_trans (Nat.sub_le _ _) hie)
        have hfuel2 : t.length - swcNextStart s (swcChunkEnd t csz s (s + csz)) ov < fuel := by
          have h1 : s + 1 ≤ swcNextStart s (swcChunkEnd t csz s (s + csz)) ov :=
            Nat.le_max_left _ _
          omega
        obtain ⟨c, hcmem, hcel⟩ := ih _ i hnext_le hi hfuel2 hne
        by_cases hch : stripL ((t.drop s).take (swcChunkEnd t csz s (s + csz) - s)) = []
        · rw [if_pos hch]
          exact ⟨c, hcmem, hcel⟩
        · rw [if_neg hch]
          exact ⟨c, List.mem_cons_of_mem _ hcmem, hcel⟩

/-- With any fuel exceeding the remaining length the loop computes the same
list: the strict progress of swcNextStart makes the fuel a pure artifact. -/
lemma swcLoop_fuel_irrel (t : List Char) (tlen csz ov : Nat) :
    ∀ (f1 s f2 : Nat), tlen - s < f1 → tlen - s < f2 →
      swcLoop t tlen csz ov s f1 = swcLoop t tlen csz ov s f2 := by
  intro f1
  induction f1 with
  | zero => intro s f2 h1 h2; omega
  | succ f1 ih =>
    intro s f2 h1 h2
    cases f2 with
    | zero => omega
    | succ f2 =>
      rw [swcLoop, swcLoop]
      by_cases hs : s < tlen
      · rw [if_pos hs, if_pos hs]
        by_cases he : tlen ≤ s + csz
        · rw [if_pos he, if_pos he]
        · rw [if_neg he, if_neg he]
          have hnext : s + 1 ≤ swcNextStart s (swcChunkEnd t csz s (s + csz)) ov :=
            Nat.le_max_left _ _
          have hrec := ih (swcNextStart s (swcChunkEnd t csz s (s + csz)) ov) f2
            (by omega) (by omega)
          by_cases hch : stripL ((t.drop s).take (swcChunkEnd t csz s (s + csz) - s)) = []
          · rw [if_pos hch, if_pos hch, hrec]
          · rw [if_neg hch, if_neg hch, hrec]
      · rw [if_neg hs, if_neg hs]

/-! ### A concrete text whose single space survives normalization but appears
in none of the produced chunks: 999 letters, one space, 1000 letters.  The
window boundary lands on the space again and again (it is always the last
space of the search window), so every chunk is cut right before it, and the
final chunk starts right after it. -/

def lostSpaceText : List Char :=
  List.replicate 999 'a' ++ ' ' :: List.replicate 1000 'b'

lemma squeezeSpaces_cons_of_ne (c : Char) (h : c ≠ ' ') (l : List Char) :
    squeezeSpaces (c :: l) = c :: squeezeSpaces l := by
  cases l with
  | nil => rfl
  | cons c2 cs =>
    rw [squeezeSpaces]
    split
    · rename_i hx
      rw [Bool.and_eq_true, decide_eq_true_iff, decide_eq_true_iff] at hx
      exact absurd hx.1 h
    · rfl

lemma squeezeSpaces_cons_cons_of_ne₂ (c c2 : Char) (h : c2 ≠ ' ') (cs : List Char) :
    squeezeSpaces (c :: c2 :: cs) = c :: squeezeSpaces (c2 :: cs) := by
  rw [squeezeSpaces]
  split
  · rename_i hx
    rw [Bool.and_eq_true, decide_eq_true_iff, decide_eq_true_iff] at hx
    exact absurd hx.2 h
  · rfl

lemma squeezeSpaces_replicate_append (n : Nat) (c : Char) (hc : c ≠ ' ') (l : List Char) :
    squeezeSpaces (List.replicate n c ++ l) = List.replicate n c ++ squeezeSpaces l := by
  induction n with
  | zero => simp
  | succ n ih =>
    rw [List.replicate_succ, List.cons_append, squeezeSpaces_cons_of_ne c hc, ih,
      List.cons_append]

lemma dropWhile_cons_of_neg {c : Char} (l : List Char) (h : pyWs c = false) :
    (c :: l).dropWhile pyWs = c :: l := by
  rw [List.dropWhile, h]

lemma stripL_eq_self_of {l : List Char} (h1 : l.dropWhile pyWs = l)
    (h2 : l.reverse.dropWhile pyWs = l.reverse) : stripL l = l := by
  rw [stripL, h1, h2, List.reverse_reverse]

lemma lostSpaceText_length : lostSpaceText.length = 2000 := by
  rw [lostSpaceText, List.length_append, List.length_replicate, List.length_cons,
    List.length_replicate]

lemma squeezeSpaces_replicate (n : Nat) (c : Char) (hc : c ≠ ' ') :
    squeezeSpaces (List.replicate n c) = List.replicate n c := by
  have h := squeezeSpaces_replicate_append n c hc []
  rw [show squeezeSpaces ([] : List Char) = [] from rfl, List.append_nil] at h
  exact h

lemma lostSpaceText_normalize : normalizeWs lostSpaceText = lostSpaceText := by
  have hmap : lostSpaceText.map (fun c => if pyWs c then ' ' else c) = lostSpaceText := by
    have hid : ∀ c ∈ lostSpaceText, (if pyWs c then ' ' else c) = id c := by
      intro c hc
      rw [lostSpaceText] at hc
      rcases List.mem_append.mp hc with h | h
      · rw [List.eq_of_mem_replicate h]; decide
      · rcases List.mem_cons.mp h with rfl | h2
        · decide
        · rw [List.eq_of_mem_replicate h2]; decide
    rw [List.map_congr_left hid, List.map_id]
  have hbsplit : List.replicate 1000 'b' = 'b' :: List.replicate 999 'b' := rfl
  have hasplit : List.replicate 999 'a' = 'a' :: List.replicate 998 'a' := rfl
  have hsq : squeezeSpaces lostSpaceText = lostSpaceText := by
    rw [lostSpaceText, squeezeSpaces_replicate_append 999 'a' (by decide), hbsplit,
      squeezeSpaces_cons_cons_of_ne₂ ' ' 'b' (by decide),
      squeezeSpaces_cons_of_ne 'b' (by decide),
      squeezeSpaces_replicate 999 'b' (by decide)]
  have hrev : lostSpaceText.reverse =
      List.replicate 1000 'b' ++ ' ' :: List.replicate 999 'a' := by
    rw [lostSpaceText, List.reverse_append, List.reverse_cons, List.reverse_replicate,
      List.reverse_replicate, List.append_assoc]
    rfl
  have hstrip : stripL lostSpaceText = lostSpaceText := by
    apply stripL_eq_self_of
    · rw [lostSpaceText, hasplit, List.cons_append]
      exact dropWhile_cons_of_neg _ (by decide)
    · rw [hrev, hbsplit, List.cons_append]
      exact dropWhile_cons_of_neg _ (by decide)
  rw [normalizeWs, hmap, hsq, hstrip]

lemma lastIdxAux_append (p : Char → Bool) :
    ∀ (l1 l2 : List Char), lastIdxAux p (l1 ++ l2) =
      match lastIdxAux p l2 with
      | some k => some (l1.length + k)
      | none => lastIdxAux p l1 := by
  intro l1 l2
  induction l1 with
  | nil =>
    cases h : lastIdxAux p l2 with
    | some k => simp [h]
    | none => simp [h, lastIdxAux]
  | cons c cs ih =>
    rw [List.cons_append, lastIdxAux, ih, lastIdxAux]
    cases h : lastIdxAux p l2 with
    | some k =>
      simp only [List.length_cons]
      congr 1
      omega
    | none => rfl

lemma lostSpaceText_drop {s : Nat} (hs : s ≤ 999) :
    lostSpaceText.drop s = List.replicate (999 - s) 'a' ++ ' ' :: List.replicate 1000 'b' := by
  rw [lostSpaceText, List.drop_append_of_le_length (by rw [List.length_replicate]; omega),
    List.drop_replicate]

lemma lastIdxAux_space_cons_replicate (k : Nat) :
    lastIdxAux (fun c => c = ' ') (' ' :: List.replicate k 'b') = some 0 := by
  rw [lastIdxAux,
    lastIdxAux_eq_none (fun c hc => by rw [List.eq_of_mem_replicate hc]; decide)]
  rfl

lemma lostSpaceText_rfind_space {s e : Nat} (hs : s ≤ 999) (he1 : 999 < e) (he2 : e ≤ 2000) :
    rfindIdx (fun c => c = ' ') lostSpaceText s e = some 999 := by
  rw [rfindIdx, lostSpaceText_drop hs, List.take_append_eq_append_take,
    List.take_of_length_le (by rw [List.length_replicate]; omega), List.length_replicate]
  have hes : e - s - (999 - s) = (e - 1000) + 1 := by omega
  rw [hes, List.take_succ_cons, List.take_replicate, lastIdxAux_append,
    lastIdxAux_space_cons_replicate]
  show Option.map (fun k => s + k) (some ((List.replicate (999 - s) 'a').length + 0)) = some 999
  rw [List.length_replicate, Option.map_some']
  congr 1
  omega

lemma lostSpaceText_rfind_punct (s e : Nat) :
    rfindIdx isPunctEnd lostSpaceText s e = none := by
  rw [rfindIdx, lastIdxAux_eq_none, Option.map_none']
  intro c hc
  have h1 : c ∈ lostSpaceText := List.mem_of_mem_drop (List.mem_of_mem_take hc)
  rw [lostSpaceText] at h1
  rcases List.mem_append.mp h1 with h2 | h2
  · rw [List.eq_of_mem_replicate h2]; decide
  · rcases List.mem_cons.mp h2 with rfl | h3
    · decide
    · rw [List.eq_of_mem_replicate h3]; decide

lemma lostSpaceText_chunkEnd {s : Nat} (hs : s ≤ 999) :
    swcChunkEnd lostSpaceText 1000 s (s + 1000) = 999 := by
  rw [swcChunkEnd_eq_none (lostSpaceText_rfind_punct _ _), swcSpaceElse,
    lostSpaceText_rfind_space hs (by omega) (by omega)]

lemma lostSpaceText_loop : ∀ (fuel s : Nat) (c : List Char),
    c ∈ swcLoop lostSpaceText 2000 1000 200 s fuel → ' ' ∉ c := by
  intro fuel
  induction fuel with
  | zero =>
    intro s c hc
    rw [swcLoop] at hc
    cases hc
  | succ fuel ih =>
    intro s c hc
    rw [swcLoop] at hc
    by_cases hs : s < 2000
    · rw [if_pos hs] at hc
      by_cases he : 2000 ≤ s + 1000
      · rw [if_pos he] at hc
        have hceq : c = lostSpaceText.drop s := (List.mem_singleton.mp hc)
        subst hceq
        intro hsp
        have h1000 : (1000 : Nat) ≤ s := by omega
        have hsplit : lostSpaceText
            = (List.replicate 999 'a' ++ [' ']) ++ List.replicate 1000 'b' := by
          rw [lostSpaceText, List.append_assoc]
          rfl
        have hl : (List.replicate 999 'a' ++ [' ']).length = 1000 := by
          rw [List.length_append, List.length_replicate]
          rfl
        have hdrop : lostSpaceText.drop s = List.replicate (2000 - s) 'b' := by
          rw [hsplit, List.drop_append_eq_append_drop, List.drop_replicate,
            List.drop_eq_nil_of_le (by omega), hl, List.nil_append]
          rw [show 1000 - (s - 1000) = 2000 - s from by omega]
        rw [hdrop] at hsp
        have := List.eq_of_mem_replicate hsp
        cases this
      · rw [if_neg he] at hc
        have hs999 : s ≤ 999 := by omega
        rw [lostSpaceText_chunkEnd hs999] at hc
        have hchunk_no : ' ' ∉ stripL ((lostSpaceText.drop s).take (999 - s)) := by
          intro hsp
          have h1 := stripL_subset hsp
          rw [lostSpaceText_drop hs999, List.take_append_eq_append_take,
            List.take_of_length_le (le_of_eq (by rw [List.length_replicate])),
            List.length_replicate, Nat.sub_self, List.take_zero, List.append_nil] at h1
          have := List.eq_of_mem_replicate h1
          cases this
        split at hc
        · exact ih _ _ hc
        · rcases List.mem_cons.mp hc with rfl | h2
          · exact hchunk_no
          · exact ih _ _ h2
    · rw [if_neg hs] at hc
      cases hc

/-! ### RobustTableDetector (app/services.py lines 375 to 490).  Each regular
expression of the source is modelled by a dedicated matcher with the same
search semantics over the characters involved. -/

/-- One line matches the dot-leader pattern: five or more dots, optional
whitespace, digits, optional whitespace, end of line (read backward from the
end of the line). -/
def dotLeaderLine (l : List Char) : Bool :=
  let r1 := l.reverse.dropWhile pyWs
  let ds := r1.takeWhile Char.isDigit
  let r2 := (r1.dropWhile Char.isDigit).dropWhile pyWs
  !ds.isEmpty && 5 ≤ (r2.takeWhile (fun c => c = '.')).length

/-- The ten navigation title patterns of _is_excluded_page, searched in the
lowercased first five lines; the daftar patterns are anchored at the start. -/
def navTitleHit (firstFew : List Char) : Bool :=
  startWsWords [pys "daftar", pys "isi"] firstFew ||
  searchWords [pys "table", pys "of", pys "contents"] firstFew ||
  startWsWords [pys "daftar", pys "tabel"] firstFew ||
  searchWords [pys "list", pys "of", pys "tables"] firstFew ||
  startWsWords [pys "daftar", pys "gambar"] firstFew ||
  searchWords [pys "list", pys "of", pys "figures"] firstFew ||
  startWsWords [pys "daftar", pys "grafik"] firstFew ||
  searchWords [pys "list", pys "of", pys "graphs"] firstFew ||
  startWsWords [pys "daftar", pys "lampiran"] firstFew ||
  searchWords [pys "list", pys "of", pys "appendices"] firstFew

/-- The bibliography pattern of _is_excluded_page. -/
def refsHit (firstFew : List Char) : Bool :=
  startWsWords [pys "daftar", pys "pustaka"] firstFew ||
  containsL (pys "references") firstFew ||
  containsL (pys "bibliography") firstFew ||
  containsL (pys "referensi") firstFew

/-- RobustTableDetector._is_excluded_page.  The float test
len(dot_lines) / len(lines) > 0.4 is written 5 * dotLines > 2 * lines, which
is exact for the integers involved. -/
def is_excluded_page (raw : List Char) (pageNum : Nat) : Bool :=
  let lines := splitOnChar '\n' (stripL raw)
  let firstFew := lowerL (joinWithChar '\n' (lines.take 5))
  navTitleHit firstFew ||
  (5 < lines.length && 5 * (lines.filter dotLeaderLine).length > 2 * lines.length) ||
  refsHit firstFew ||
  (pageNum = 1 && lines.length < 10) ||
  (stripL raw).length < 50

/-- Matcher for tabel ws+ digits-or-dots+ ws* literal (lanjutan), anchored at
the head. -/
def matchTabelParenAt (s : List Char) : Bool :=
  match eatLit (pys "tabel") s with
  | none => false
  | some [] => false
  | some (c :: cs) =>
    pyWs c &&
      (let r1 := cs.dropWhile pyWs
       let dd := r1.takeWhile (fun c2 => c2.isDigit || c2 = '.')
       let r2 := r1.dropWhile (fun c2 => c2.isDigit || c2 = '.')
       !dd.isEmpty && litAt (pys "(lanjutan)") (r2.dropWhile pyWs))

def searchTabelParen : List Char → Bool
  | [] => false
  | c :: cs => matchTabelParenAt (c :: cs) || searchTabelParen cs

/-- MULTILINE caret-tabel-dollar pattern: some line equals the word. -/
def lineExact (w : List Char) (t : List Char) : Bool :=
  (splitOnChar '\n' t).any (fun l => l = w)

/-- RobustTableDetector._detect_table_keyword. -/
def detect_table_keyword (text : List Char) : Bool × String :=
  let tl := lowerL text
  if searchKwDigit (pys "tabel") tl || searchKwDigit (pys "table") tl ||
      searchWords [pys "lanjutan", pys "tabel"] tl ||
      searchTabelParen tl ||
      lineExact (pys "tabel") tl || lineExact (pys "table") tl
  then (true, "table_keyword_found") else (false, "no_table_keyword")

/-- RobustTableDetector._detect_lampiran_keyword. -/
def detect_lampiran_keyword (text : List Char) : Bool × String :=
  let firstFew := lowerL (joinWithChar '\n' ((splitOnChar '\n' (stripL text)).take 5))
  if startWsWords [pys "lampiran"] firstFew || containsL (pys "appendix") firstFew
  then (true, "lampiran_keyword_found") else (false, "no_lampiran_keyword")

/-- One findall step of the pattern open-paren ws* digits+ ws* close-paren:
the matched substring and the rest of the text. -/
def parenMatchAt : List Char → Option (List Char × List Char)
  | '(' :: rest =>
    let w1 := rest.takeWhile pyWs
    let r1 := rest.dropWhile pyWs
    let ds := r1.takeWhile Char.isDigit
    let r2 := r1.dropWhile Char.isDigit
    if ds.isEmpty then none
    else
      let w2 := r2.takeWhile pyWs
      let r3 := r2.dropWhile pyWs
      match r3 with
      | ')' :: r4 => some ('(' :: (w1 ++ ds ++ w2 ++ [')']), r4)
      | _ => none
  | _ => none

/-- re.findall scan, left to right, non-overlapping.  The fuel (the length of
the text) is an upper bound on the number of scan steps, each of which
consumes at least one character. -/
def findParenGroups : Nat → List Char → List (List Char)
  | 0, _ => []
  | _, [] => []
  | fuel + 1, c :: cs =>
    match parenMatchAt (c :: cs) with
    | some (m, rest) => m :: findParenGroups fuel rest
    | none => findParenGroups fuel cs

/-- RobustTableDetector._detect_column_numbering: at least two distinct
matched substrings of the numbered-column pattern. -/
def detect_column_numbering (text : List Char) : Bool × String :=
  if 2 ≤ ((findParenGroups text.length text).dedup).length
  then (true, "flexible_column_numbering_found")
  else (false, "no_strong_column_numbering")

/-- RobustTableDetector._detect_table_page. -/
def detect_table_page (raw : List Char) (pageNum : Nat) : Bool × String :=
  if is_excluded_page raw pageNum then (false, "excluded_page")
  else
    if ((detect_table_keyword raw).1 || (detect_lampiran_keyword raw).1) &&
        (detect_column_numbering raw).1 then
      (true, if (detect_table_keyword raw).1 then "table_with_structure"
             else "lampiran_with_structure")
    else if !((detect_table_keyword raw).1 || (detect_lampiran_keyword raw).1) &&
        (detect_column_numbering raw).1 then
      (true, "structure_only_table")
    else if ((detect_table_keyword raw).1 || (detect_lampiran_keyword raw).1) &&
        !(detect_column_numbering raw).1 then
      (false, "keyword_found_but_lacks_structure")
    else (false, "no_keyword_and_no_structure")

/-- One re.sub(a run of two or more whitespace characters, one space) step;
a single whitespace character is kept as it is.  The fuel (the length of the
line) bounds the number of steps, each consuming at least one character. -/
def collapse2Aux : Nat → List Char → List Char
  | 0, _ => []
  | _, [] => []
  | fuel + 1, c :: cs =>
    if pyWs c then
      match cs with
      | c2 :: _ =>
        if pyWs c2 then ' ' :: collapse2Aux fuel (cs.dropWhile pyWs)
        else c :: collapse2Aux fuel cs
      | [] => [c]
    else c :: collapse2Aux fuel cs

def collapse2 (l : List Char) : List Char := collapse2Aux l.length l

/-- RobustTableDetector._clean_text_for_rag. -/
def clean_text_for_rag (raw : List Char) : List Char :=
  joinWithChar '\n'
    (((splitOnChar '\n' (stripL raw)).filter (fun l => !(stripL l).isEmpty)).map
      (fun l => collapse2 (stripL l)))

/-- Modelled from the spec wording of claim C8, for the refinement comparison
only: the exclusion tests enumerated there are a navigation/TOC heading in the
first five lines, more than 40 percent dot-leader lines, page one with fewer
than ten lines, or total text under fifty characters.  The source has two
further conditions (a bibliography heading, and the dot-leader test applying
only to pages with more than five lines). -/
def spec_excluded_page (raw : List Char) (pageNum : Nat) : Bool :=
  let lines := splitOnChar '\n' (stripL raw)
  let firstFew := lowerL (joinWithChar '\n' (lines.take 5))
  navTitleHit firstFew ||
  (5 * (lines.filter dotLeaderLine).length > 2 * lines.length) ||
  (pageNum = 1 && lines.length < 10) ||
  (stripL raw).length < 50

/-! ### process_and_save_pdf (app/services.py line 493): the relational store
and the hybrid chunking loop.  A pdf file is represented by the list of the
raw texts of its pages; the sha256 content hash is represented by that page
list itself (the model only ever compares hashes, and byte-identical files
have identical pages).  Database commits and rollbacks need no model because
the embedded loop raises no exceptions and is never interrupted (job_id is
None). -/

structure PdfFile where
  pages : List (List Char)
deriving DecidableEq

structure PdfDocRec where
  id : Nat
  hash : List (List Char)
  totalPages : Nat
deriving DecidableEq

structure ChunkRec where
  docId : Nat
  pageNumber : Nat
  content : List Char
  ctype : String
deriving DecidableEq

structure Db where
  docs : List PdfDocRec
  chunks : List ChunkRec
  nextId : Nat
deriving DecidableEq

inductive PdfStatus
  | skipped
  | success
  | stopped
  | error
deriving DecidableEq

/-- PdfDocument.query.filter_by(document_hash=...).first(). -/
def findDoc (db : Db) (h : List (List Char)) : Option PdfDocRec :=
  db.docs.find? (fun d => d.hash = h)

def maxNat? : List Nat → Option Nat
  | [] => none
  | n :: ns =>
    match maxNat? ns with
    | none => some n
    | some m => some (max n m)

/-- The page number of the chunk of the document with the greatest page
number: DocumentChunk.query.filter_by(...).order_by(page_number.desc()).first(). -/
def lastChunkPage (db : Db) (docId : Nat) : Option Nat :=
  maxNat? ((db.chunks.filter (fun c => c.docId = docId)).map (fun c => c.pageNumber))

structure ChunkState where
  db : Db
  docAdded : Bool
  docId : Nat
  buffer : List Char
  bufferStartPage : Nat
deriving DecidableEq

/-- The if-not-document.id block: add the document row on the first
non-excluded page. -/
def ensureDoc (st : ChunkState) (h : List (List Char)) (totalPages : Nat) : ChunkState :=
  if st.docAdded then st
  else
    { st with
      db := { st.db with
                docs := st.db.docs ++ [{ id := st.docId, hash := h, totalPages := totalPages }],
                nextId := st.db.nextId + 1 },
      docAdded := true }

/-- The table branch of the page loop: flush the text buffer, store the page
whole, restart the buffer after this page. -/
def stepTable (st : ChunkState) (pr : Nat × List Char) : ChunkState :=
  { st with
    db := { st.db with
              chunks := st.db.chunks ++
                (if st.buffer = [] then []
                 else
                   (semantic_sliding_window_chunker st.buffer 1000 200).map
                     (fun c => ChunkRec.mk st.docId st.bufferStartPage c "text")) ++
                [ChunkRec.mk st.docId pr.1 (clean_text_for_rag pr.2) "table"] },
    buffer := [],
    bufferStartPage := pr.1 + 1 }

/-- The oversized-buffer partial flush of the text branch: save every chunk
but the last, which goes back to the buffer as the overlap. -/
def stepTextFlush (st : ChunkState) (pr : Nat × List Char) :
    Option (List Char) → ChunkState
  | none => { st with buffer := st.buffer ++ ' ' :: clean_text_for_rag pr.2 }
  | some lastChunk =>
    { st with
      db := { st.db with
                chunks := st.db.chunks ++
                  ((semantic_sliding_window_chunker
                      (st.buffer ++ ' ' :: clean_text_for_rag pr.2) 1000 200).dropLast).map
                    (fun c => ChunkRec.mk st.docId pr.1 c "text") },
      buffer := lastChunk }

/-- The text branch of the page loop: append to the buffer and flush partially
past 5000 characters. -/
def stepText (st : ChunkState) (pr : Nat × List Char) : ChunkState :=
  if 5000 < (st.buffer ++ ' ' :: clean_text_for_rag pr.2).length then
    stepTextFlush st pr
      ((semantic_sliding_window_chunker
          (st.buffer ++ ' ' :: clean_text_for_rag pr.2) 1000 200).getLast?)
  else { st with buffer := st.buffer ++ ' ' :: clean_text_for_rag pr.2 }

/-- The hybrid chunking dispatch for one non-excluded page. -/
def stepBody (st : ChunkState) (pr : Nat × List Char) : ChunkState :=
  if (detect_table_page pr.2 pr.1).1 then stepTable st pr
  else stepText st pr

/-- The body of the page loop of process_and_save_pdf. -/
def stepPage (hash : List (List Char)) (totalPages startPage : Nat)
    (st : ChunkState) (pr : Nat × List Char) : ChunkState :=
  if pr.1 < startPage then st
  else
    if (detect_table_page pr.2 pr.1).2 = "excluded_page" then st
    else stepBody (ensureDoc st hash totalPages) pr

/-- Pages of a file with their 1-based page numbers, as enumerate(doc, 1). -/
def enumerate1 (pages : List (List Char)) : List (Nat × List Char) :=
  (List.range' 1 pages.length).zip pages

/-- The final buffer flush after the page loop, at page number total_pages. -/
def runFlush (totalPages : Nat) (st1 : ChunkState) : Db × PdfStatus :=
  if st1.buffer = [] then (st1.db, .success)
  else
    ({ st1.db with
        chunks := st1.db.chunks ++
          (semantic_sliding_window_chunker st1.buffer 1000 200).map
            (fun c => ChunkRec.mk st1.docId totalPages c "text") },
      .success)

/-- The page loop plus the final buffer flush. -/
def runChunking (file : PdfFile) (db : Db) (docId : Nat) (docAdded : Bool)
    (startPage : Nat) : Db × PdfStatus :=
  runFlush file.pages.length
    ((enumerate1 file.pages).foldl (stepPage file.pages file.pages.length startPage)
      ⟨db, docAdded, docId, [], startPage⟩)

/-- The resume decision once the document row exists: skip when the stored
last chunk has reached the page count, else restart after it. -/
def processResume (file : PdfFile) (db : Db) (d : PdfDocRec) :
    Option Nat → Db × PdfStatus
  | some p =>
    if file.pages.length ≤ p then (db, .skipped)
    else runChunking file db d.id true (p + 1)
  | none => runChunking file db d.id true 1

/-- Dispatch on the hash lookup: resume an existing document or ingest a new
one whose row is added on the first stored page. -/
def processFound (file : PdfFile) (db : Db) : Option PdfDocRec → Db × PdfStatus
  | some d => processResume file db d (lastChunkPage db d.id)
  | none => runChunking file db db.nextId false 1

/-- process_and_save_pdf (app/services.py line 493), with job_id None. -/
def process_and_save_pdf (file : PdfFile) (db : Db) : Db × PdfStatus :=
  processFound file db (findDoc db file.pages)

/-! ### GeminiService (app/services.py lines 156 to 325): credential pool,
rotation and stream generation.  The external generation call is modelled by
an oracle list of outcomes, one entry per call the loop makes; time is in
hours for the 24 hour quota cooldown. -/

structure KeyCfg where
  quotaExceeded : Bool
  quotaExceededAt : Option Int
  lastUsed : Option Int
  totalRequests : Nat
  failedRequests : Nat
deriving DecidableEq

structure GemState where
  numKeys : Nat
  currentKeyIndex : Nat
  clientOk : Bool
  cfgs : List (Nat × KeyCfg)
  now : Int
deriving DecidableEq

/-- GeminiApiKeyConfig.query.filter_by(key_alias=str(index + 1)).first(). -/
def lookupCfg (st : GemState) (idx : Nat) : Option KeyCfg :=
  (st.cfgs.find? (fun p => p.1 = idx + 1)).map (fun p => p.2)

def storeCfg (st : GemState) (idx : Nat) (c : KeyCfg) : GemState :=
  { st with cfgs := st.cfgs.map (fun p => if p.1 = idx + 1 then (p.1, c) else p) }

/-- GeminiApiKeyConfig.check_and_reset_quota (app/models.py line 68): clear a
quota flag whose reset time (24 hours after it was set) has passed. -/
def check_and_reset_quota (c : KeyCfg) (now : Int) : KeyCfg :=
  if c.quotaExceeded then
    match c.quotaExceededAt with
    | some t =>
      if t + 24 ≤ now then { c with quotaExceeded := false, quotaExceededAt := none } else c
    | none => c
  else c

/-- GeminiApiKeyConfig.mark_quota_exceeded. -/
def mark_quota_exceeded (c : KeyCfg) (now : Int) : KeyCfg :=
  { c with quotaExceeded := true, quotaExceededAt := some now }

/-- GeminiApiKeyConfig.mark_successful_request on the current key. -/
def mark_successful_request (st : GemState) : GemState :=
  match lookupCfg st st.currentKeyIndex with
  | some c =>
    storeCfg st st.currentKeyIndex
      { c with totalRequests := c.totalRequests + 1, lastUsed := some st.now }
  | none => st

/-- GeminiApiKeyConfig.mark_failed_request on the current key. -/
def mark_failed_request (st : GemState) : GemState :=
  match lookupCfg st st.currentKeyIndex with
  | some c =>
    storeCfg st st.currentKeyIndex
      { c with totalRequests := c.totalRequests + 1,
               failedRequests := c.failedRequests + 1, lastUsed := some st.now }
  | none => st

/-- GeminiService._initialize_client: fail past the end of the pool, lazily
reset and then skip a quota-flagged key (leaving the stale client as the
source does), else construct the client and stamp last_used. -/
def init_client (st : GemState) : GemState × Bool :=
  if st.numKeys ≤ st.currentKeyIndex then ({ st with clientOk := false }, false)
  else
    match lookupCfg st st.currentKeyIndex with
    | some c =>
      let c1 := check_and_reset_quota c st.now
      let st1 := storeCfg st st.currentKeyIndex c1
      if c1.quotaExceeded then (st1, false)
      else
        ({ storeCfg st1 st.currentKeyIndex { c1 with lastUsed := some st.now } with
            clientOk := true }, true)
    | none => ({ st with clientOk := true }, true)

/-- GeminiService._rotate_key: flag the current key in the store, advance the
index, and report whether a client could be initialized on the new key. -/
def rotate_key (st : GemState) : GemState × Bool :=
  let st1 :=
    match lookupCfg st st.currentKeyIndex with
    | some c => storeCfg st st.currentKeyIndex (mark_quota_exceeded c st.now)
    | none => st
  init_client { st1 with currentKeyIndex := st1.currentKeyIndex + 1 }

inductive GenOutcome
  | ok (text : String)
  | err (msg : List Char)
deriving DecidableEq

/-- The quota classification of stream_generate_content: "429" in str(e) or
"quota" or "resource_exhausted" in str(e).lower(). -/
def isQuotaMsg (m : List Char) : Bool :=
  containsL (pys "429") m || containsL (pys "quota") (lowerL m) ||
    containsL (pys "resource_exhausted") (lowerL m)

/-- The safety classification: "safety" or "blocked" in str(e).lower(); only
reached when the quota classification failed. -/
def isSafetyMsg (m : List Char) : Bool :=
  containsL (pys "safety") (lowerL m) || containsL (pys "blocked") (lowerL m)

/-- The attempt loop of stream_generate_content.  The fuel is max_attempts =
len(api_keys); falling through the loop raises the exhaustion error. -/
def streamAttempts : GemState → List GenOutcome → Nat → GemState × Except (List Char) String
  | st, _, 0 => (st, .error (pys "All API keys have exceeded their quota"))
  | st, outs, fuel + 1 =>
    let p := if st.clientOk then (st, true) else init_client st
    if p.2 = false then (p.1, .error (pys "All API keys have exceeded their quota"))
    else
      match outs with
      | [] => (p.1, .error (pys "oracle exhausted"))
      | o :: rest =>
        match o with
        | .ok t => (mark_successful_request p.1, .ok t)
        | .err m =>
          let st2 := mark_failed_request p.1
          if isQuotaMsg m then
            match rotate_key st2 with
            | (st3, true) => streamAttempts st3 rest fuel
            | (st3, false) => (st3, .error (pys "All API keys have exceeded their quota"))
          else if isSafetyMsg m then
            (st2, .error (pys "Content blocked due to safety settings"))
          else (st2, .error m)

/-- GeminiService.stream_generate_content (app/services.py line 266). -/
def stream_generate_content (st : GemState) (outs : List GenOutcome) :
    GemState × Except (List Char) String :=
  streamAttempts st outs st.numKeys

/-! ### Multi-criteria reranker rerank_with_dss (app/helpers.py line 499).
Scores are modelled in Rat; every comparison the claims decide is separated
from equality by at least 1 / 7300, far above the float rounding error of the
source, so the Rat model and the float code order items identically there. -/

structure PyDate where
  year : Int
  month : Nat
  day : Nat
  ord : Int
deriving DecidableEq

structure DocM where
  filename : List Char
  link : Option (List Char)
deriving DecidableEq

structure BeritaM where
  id : Nat
  judulBerita : List Char
  ringkasan : List Char
  link : List Char
  tanggalRilis : PyDate
deriving DecidableEq

structure ChunkM where
  id : Nat
  documentId : Nat
  pageNumber : Int
  content : List Char
  metaType : Option (List Char)
  createdOrd : Int
  updatedOrd : Int
  document : Option DocM
deriving DecidableEq

inductive RItem
  | berita (b : BeritaM)
  | chunk (c : ChunkM)
deriving DecidableEq

structure FeedbackRec where
  entityType : List Char
  entityId : Nat
  score : ℚ
deriving DecidableEq

/-- Python sorted with reverse=True is a stable descending sort; insertion
after every earlier element with a greater-or-equal key reproduces it. -/
def insDescBy {α β : Type} [LinearOrder β] (key : α → β) (a : α) : List α → List α
  | [] => [a]
  | b :: bs => if key b < key a then a :: b :: bs else b :: insDescBy key a bs

def stableSortDesc {α β : Type} [LinearOrder β] (key : α → β) (l : List α) : List α :=
  l.foldl (fun acc x => insDescBy key x acc) []

/-- Python sorted (ascending) is a stable sort; insertion after every earlier
element with a smaller-or-equal key reproduces it. -/
def insAscBy {α β : Type} [LinearOrder β] (key : α → β) (a : α) : List α → List α
  | [] => [a]
  | b :: bs => if key a < key b then a :: b :: bs else b :: insAscBy key a bs

def stableSortAsc {α β : Type} [LinearOrder β] (key : α → β) (l : List α) : List α :=
  l.foldl (fun acc x => insAscBy key x acc) []

structure SawWeights where
  relevance : ℚ
  feedback : ℚ
  recency : ℚ
  contentType : ℚ

/-- The context-dependent weights of rerank_with_dss: 0.50/0.30/0.05/0.15
with requested years, 0.40/0.35/0.15/0.10 without. -/
def weights_for (requestedYears : List Int) : SawWeights :=
  if requestedYears ≠ [] then ⟨1/2, 3/10, 1/20, 3/20⟩ else ⟨2/5, 7/20, 3/20, 1/10⟩

/-- The feedback rows the source queries: scores of the berita and chunk ids
present in the result list. -/
def feedback_filtered (dbF : List FeedbackRec) (l : List (RItem × ℚ)) : List FeedbackRec :=
  let beritaIds := l.filterMap (fun p => match p.1 with | .berita b => some b.id | _ => none)
  let chunkIds := l.filterMap (fun p => match p.1 with | .chunk c => some c.id | _ => none)
  dbF.filter (fun f =>
    (f.entityType = pys "berita_bps" && beritaIds.contains f.entityId) ||
    (f.entityType = pys "document_chunk" && chunkIds.contains f.entityId))

/-- Lookup in the feedback map; a duplicate key keeps the last row, as the
dict comprehension of the source does. -/
def feedback_lookup (dbF : List FeedbackRec) (l : List (RItem × ℚ))
    (ty : List Char) (eid : Nat) : Option ℚ :=
  (((feedback_filtered dbF l).filter
      (fun f => f.entityType = ty && f.entityId = eid)).getLast?).map (fun f => f.score)

def relevance_score (d : ℚ) : ℚ := 1 - d

/-- The recency score: a news item whose release year is requested gets 1.0;
otherwise, and for every document chunk, the 365 day linear decay
max(0, 1 - days_ago / 365).  The chunk decay counts from created_at. -/
def recency_score (it : RItem) (requestedYears : List Int) (today : Int) : ℚ :=
  match it with
  | .berita b =>
    if requestedYears ≠ [] ∧ b.tanggalRilis.year ∈ requestedYears then 1
    else max 0 (1 - ((today - b.tanggalRilis.ord : Int) : ℚ) / 365)
  | .chunk c => max 0 (1 - ((today - c.createdOrd : Int) : ℚ) / 365)

def content_type_score (it : RItem) : ℚ :=
  match it with
  | .chunk c => if c.metaType = some (pys "table") then 1 else 1/2
  | .berita _ => 1/2

def feedback_score (dbF : List FeedbackRec) (l : List (RItem × ℚ)) (it : RItem) : ℚ :=
  match it with
  | .berita b => (feedback_lookup dbF l (pys "berita_bps") b.id).getD (1/2)
  | .chunk c => (feedback_lookup dbF l (pys "document_chunk") c.id).getD (1/2)

def final_score (dbF : List FeedbackRec) (l : List (RItem × ℚ)) (requestedYears : List Int)
    (today : Int) (it : RItem) (d : ℚ) : ℚ :=
  relevance_score d * (weights_for requestedYears).relevance +
    feedback_score dbF l it * (weights_for requestedYears).feedback +
    recency_score it requestedYears today * (weights_for requestedYears).recency +
    content_type_score it * (weights_for requestedYears).contentType

/-- rerank_with_dss (app/helpers.py line 499); today is utcnow().date() as a
day ordinal. -/
def rerank_with_dss (dbF : List FeedbackRec) (today : Int)
    (results : List (RItem × ℚ)) (requestedYears : List Int) : List RItem :=
  if results = [] then []
  else
    (stableSortDesc (fun p => p.2)
      (results.map
        (fun p => (p.1, final_score dbF results requestedYears today p.1 p.2)))).map
      (fun p => p.1)

/-! ### Stability and sortedness of the insertion sorts -/

lemma mem_insDescBy {α β : Type} [LinearOrder β] {key : α → β} {a x : α} :
    ∀ {l : List α}, x ∈ insDescBy key a l → x = a ∨ x ∈ l := by
  intro l
  induction l with
  | nil =>
    intro h
    exact Or.inl (List.mem_singleton.mp h)
  | cons b bs ih =>
    intro h
    rw [insDescBy] at h
    split at h
    · rcases List.mem_cons.mp h with rfl | h2
      · exact Or.inl rfl
      · exact Or.inr h2
    · rcases List.mem_cons.mp h with rfl | h2
      · exact Or.inr (List.mem_cons_self _ _)
      · rcases ih h2 with h3 | h3
        · exact Or.inl h3
        · exact Or.inr (List.mem_cons_of_mem _ h3)

lemma pairwise_insDescBy {α β : Type} [LinearOrder β] {key : α → β} {a : α} :
    ∀ {l : List α}, l.Pairwise (fun u v => key v ≤ key u) →
      (insDescBy key a l).Pairwise (fun u v => key v ≤ key u) := by
  intro l
  induction l with
  | nil => intro _; exact List.pairwise_singleton _ _
  | cons b bs ih =>
    intro h
    rw [List.pairwise_cons] at h
    rw [insDescBy]
    split
    · rename_i hlt
      rw [List.pairwise_cons]
      refine ⟨?_, List.pairwise_cons.mpr h⟩
      intro v hv
      rcases List.mem_cons.mp hv with rfl | h2
      · exact le_of_lt hlt
      · exact le_trans (h.1 v h2) (le_of_lt hlt)
    · rename_i hge
      push_neg at hge
      rw [List.pairwise_cons]
      refine ⟨?_, ih h.2⟩
      intro v hv
      rcases mem_insDescBy hv with rfl | h2
      · exact hge
      · exact h.1 v h2

lemma pairwise_stableSortDesc {α β : Type} [LinearOrder β] (key : α → β) (l : List α) :
    (stableSortDesc key l).Pairwise (fun u v => key v ≤ key u) := by
  rw [stableSortDesc]
  suffices h : ∀ (acc : List α), acc.Pairwise (fun u v => key v ≤ key u) →
      (l.foldl (fun acc x => insDescBy key x acc) acc).Pairwise
        (fun u v => key v ≤ key u) by
    exact h [] List.Pairwise.nil
  induction l with
  | nil => intro acc hacc; exact hacc
  | cons x xs ih => intro acc hacc; exact ih _ (pairwise_insDescBy hacc)

lemma mem_stableSortDesc {α β : Type} [LinearOrder β] {key : α → β} {x : α} {l : List α}
    (h : x ∈ stableSortDesc key l) : x ∈ l := by
  rw [stableSortDesc] at h
  have hs : ∀ (l2 acc : List α), x ∈ l2.foldl (fun acc y => insDescBy key y acc) acc →
      x ∈ acc ∨ x ∈ l2 := by
    intro l2
    induction l2 with
    | nil => intro acc h2; exact Or.inl h2
    | cons y ys ih =>
      intro acc h2
      rcases ih (insDescBy key y acc) h2 with h3 | h3
      · rcases mem_insDescBy h3 with rfl | h4
        · exact Or.inr (List.mem_cons_self _ _)
        · exact Or.inl h4
      · exact Or.inr (List.mem_cons_of_mem _ h3)
  rcases hs l [] h with h2 | h2
  · cases h2
  · exact h2

/-! ### Continuation stitching of build_context (app/helpers.py lines 96-142) -/

/-- Occurrence of pat reachable without crossing a newline. -/
def afterNoNl (pat : List Char) : List Char → Bool
  | [] => litAt pat []
  | c :: cs => litAt pat (c :: cs) || (c ≠ '\n' && afterNoNl pat cs)

/-- re.search of tabel dot-star lanjutan; the dot does not cross a newline. -/
def tabelThenLanjutan : List Char → Bool
  | [] => false
  | c :: cs =>
    (litAt (pys "tabel") (c :: cs) && afterNoNl (pys "lanjutan") ((c :: cs).drop 5)) ||
      tabelThenLanjutan cs

/-- The continuation marker pattern (lanjutan tabel | tabel dot-star lanjutan
| continued table), IGNORECASE, searched in the chunk content. -/
def continuationMatch (s : List Char) : Bool :=
  containsL (pys "lanjutan tabel") (lowerL s) || tabelThenLanjutan (lowerL s) ||
    containsL (pys "continued table") (lowerL s)

/-- Ordered id-keyed map, as a Python dict: insertion order, overwrite in
place. -/
def amHas (m : List (Nat × ChunkM)) (k : Nat) : Bool :=
  (m.find? (fun p => p.1 = k)).isSome

def amInsert (m : List (Nat × ChunkM)) (k : Nat) (v : ChunkM) : List (Nat × ChunkM) :=
  if amHas m k then m.map (fun p => if p.1 = k then (k, v) else p)
  else m ++ [(k, v)]

/-- chunks_by_doc_page lookup: the last chunk of the document with the given
page number wins, as repeated dict assignment does. -/
def chunkAtPage (allRelated : List ChunkM) (did : Nat) (p : Int) : Option ChunkM :=
  (allRelated.filter (fun c => c.documentId = did && c.pageNumber = p)).getLast?

def maxPageOf (l : List ChunkM) : Int := l.foldl (fun a c => max a c.pageNumber) 0

/-- The backward while loop: add the preceding page while it exists and is
new, and continue only while it also matches the marker.  The fuel equals the
current page number, which bounds the iterations exactly: the loop stops at
page one. -/
def stitchBack (lu : Int → Option ChunkM) :
    Nat → Int → List (Nat × ChunkM) → List (Nat × ChunkM)
  | 0, _, m => m
  | fuel + 1, cp, m =>
    if cp - 1 ≤ 0 then m
    else
      match lu (cp - 1) with
      | some pc =>
        if amHas m pc.id then m
        else
          if continuationMatch pc.content then
            stitchBack lu fuel (cp - 1) (amInsert m pc.id pc)
          else amInsert m pc.id pc
      | none => m

/-- The forward while loop: follow matching continuation pages.  The fuel
(distance to one past the greatest stored page number) bounds the iterations:
a lookup above the greatest page fails. -/
def stitchFwd (lu : Int → Option ChunkM) :
    Nat → Int → List (Nat × ChunkM) → List (Nat × ChunkM)
  | 0, _, m => m
  | fuel + 1, cp, m =>
    match lu (cp + 1) with
    | none => m
    | some nc =>
      if continuationMatch nc.content then
        stitchFwd lu fuel (cp + 1) (if amHas m nc.id then m else amInsert m nc.id nc)
      else m

/-- all_related_chunks: the batched query over the document ids of the
retrieved fragments. -/
def relatedOf (docChunks chunkDb : List ChunkM) : List ChunkM :=
  chunkDb.filter (fun c => docChunks.any (fun d => d.documentId = c.documentId))

/-- The continuation stitching step of build_context; chunkDb is the content
of the document_chunks table seen by the batched query. -/
def augment_chunks (docChunks : List ChunkM) (chunkDb : List ChunkM) : List ChunkM :=
  (if docChunks.isEmpty then docChunks.foldl (fun m c => amInsert m c.id c) []
   else
     docChunks.foldl
       (fun m chunk =>
         stitchFwd (chunkAtPage (relatedOf docChunks chunkDb) chunk.documentId)
           (maxPageOf (relatedOf docChunks chunkDb) + 1 - chunk.pageNumber).toNat
           chunk.pageNumber
           (if continuationMatch chunk.content then
             stitchBack (chunkAtPage (relatedOf docChunks chunkDb) chunk.documentId)
               chunk.pageNumber.toNat chunk.pageNumber m
           else m))
       (docChunks.foldl (fun m c => amInsert m c.id c) [])).map
    (fun p => p.2)

/-! ### Context assembly of build_context (app/helpers.py lines 144-217) -/

/-- Zero-padded decimal rendering, as Python strftime uses it. -/
def natPad (w n : Nat) : List Char :=
  List.replicate (w - (toString n).data.length) '0' ++ (toString n).data

/-- strftime of a date with the Y-m-d format. -/
def strftimeYmd (d : PyDate) : List Char :=
  natPad 4 d.year.toNat ++ '-' :: (natPad 2 d.month ++ '-' :: natPad 2 d.day)

def isWordChar (c : Char) : Bool := c.isAlphanum || c = '_'

/-- Leftmost match of the word-bounded 20xx-or-19xx pattern of
extract_year_from_filename; prev is the character before the scan position. -/
def yearScan : Option Char → List Char → Option Int
  | prev, c1 :: c2 :: c3 :: c4 :: rest =>
    if (match prev with | none => true | some p => !isWordChar p) &&
        ((c1 = '2' && c2 = '0') || (c1 = '1' && c2 = '9')) &&
        c3.isDigit && c4.isDigit &&
        (match rest with | [] => true | r :: _ => !isWordChar r) then
      some (((c1.toNat - 48) * 1000 + (c2.toNat - 48) * 100 +
             (c3.toNat - 48) * 10 + (c4.toNat - 48) : Nat) : Int)
    else yearScan (some c1) (c2 :: c3 :: c4 :: rest)
  | _, _ => none

/-- extract_year_from_filename (app/helpers.py line 184). -/
def extract_year_from_filename (filename : List Char) : Int :=
  (yearScan none filename).getD 9999

/-- Distinct values sorted descending, as sorted(dict.keys(), reverse=True). -/
def insSortedDedupDesc (x : Int) : List Int → List Int
  | [] => [x]
  | y :: ys =>
    if x > y then x :: y :: ys else if x = y then y :: ys else y :: insSortedDedupDesc x ys

def sortedYearsDesc (l : List Int) : List Int :=
  l.foldl (fun acc y => insSortedDedupDesc y acc) []

/-- Distinct values sorted ascending, as sorted(set(...)). -/
def insSortedDedupAsc (x : Int) : List Int → List Int
  | [] => [x]
  | y :: ys =>
    if x < y then x :: y :: ys else if x = y then y :: ys else y :: insSortedDedupAsc x ys

def sortedSetAsc (l : List Int) : List Int :=
  l.foldl (fun acc y => insSortedDedupAsc y acc) []

def joinCommaInts (l : List Int) : List Char :=
  joinWithStr (pys ", ") (l.map (fun y => (toString y).data))

/-- The news block: grouped by release year, newest year first, newest first
within a year. -/
def render_news (news : List BeritaM) : List Char :=
  if news.isEmpty then []
  else
    pys "--- KONTEKS DARI BERITA RESMI BPS ---\n\n" ++
    (sortedYearsDesc (news.map (fun n => n.tanggalRilis.year))).foldl
      (fun acc y =>
        acc ++ pys "### Konteks Berita Tahun " ++ (toString y).data ++ pys " ###\n" ++
          ((stableSortDesc (fun n => n.tanggalRilis.ord)
              (news.filter (fun n => n.tanggalRilis.year = y))).foldl
            (fun acc2 n =>
              acc2 ++ pys "* **Sumber Berita:** " ++ n.judulBerita ++ pys "\n" ++
                pys "    **Tanggal Rilis:** " ++ strftimeYmd n.tanggalRilis ++ pys "\n" ++
                pys "    **Link:** " ++ n.link ++ pys "\n" ++
                pys "    **Konten:** " ++ n.ringkasan ++ pys "\n\n") []))
      []

def docKeyOf (c : ChunkM) : Option (List Char × Option (List Char)) :=
  c.document.map (fun d => (d.filename, d.link))

/-- First-occurrence deduplication of the document keys, as dict insertion
order; the fuel (the list length) bounds the steps. -/
def dedupKeysAux : Nat → List (List Char × Option (List Char)) →
    List (List Char × Option (List Char))
  | 0, _ => []
  | _, [] => []
  | fuel + 1, k :: ks => k :: dedupKeysAux fuel (ks.filter (fun k2 => k2 ≠ k))

def dedupKeys (l : List (List Char × Option (List Char))) :
    List (List Char × Option (List Char)) :=
  dedupKeysAux l.length l

/-- The document block: grouped by (filename, link), groups ordered by the
year parsed from the filename ascending (stable), chunks by page ascending. -/
def render_docs (docChunks : List ChunkM) : List Char :=
  if docChunks.isEmpty then []
  else
    pys "--- KONTEKS DARI DOKUMEN PDF ---\n\n" ++
    (stableSortAsc (fun k => extract_year_from_filename k.1)
        (dedupKeys (docChunks.filterMap docKeyOf))).foldl
      (fun acc k =>
        acc ++ pys "### Dokumen: " ++ k.1 ++
          (if extract_year_from_filename k.1 ≠ 9999 then
            pys " (Tahun " ++ (toString (extract_year_from_filename k.1)).data ++ pys ")"
          else []) ++ pys " ###\n" ++
          (match k.2 with
           | some lk => if lk ≠ [] then pys "**Link:** " ++ lk ++ pys "\n" else []
           | none => []) ++
          ((stableSortAsc (fun c => c.pageNumber)
              (docChunks.filter (fun c => docKeyOf c = some k))).foldl
            (fun acc2 c =>
              acc2 ++ pys "**Halaman " ++ (toString c.pageNumber).data ++ pys ":**\n" ++
                c.content ++ pys "\n\n") []))
      []

/-- The requested years the surviving news do not cover, sorted ascending. -/
def missing_years (newsItems : List BeritaM) (requestedYears : List Int) : List Int :=
  sortedSetAsc (requestedYears.filter
    (fun y => !(newsItems.any (fun n => n.tanggalRilis.year = y))))

/-- The data-unavailable warning block of build_context. -/
def render_missing (requestedYears : List Int) (newsItems : List BeritaM) : List Char :=
  if requestedYears ≠ [] then
    if missing_years newsItems requestedYears ≠ [] then
      pys "\n⚠️ PENTING - DATA TIDAK LENGKAP ⚠️\n" ++
      pys "User meminta data untuk tahun: " ++ joinCommaInts requestedYears ++ pys "\n" ++
      pys "Data yang TIDAK ditemukan untuk tahun: " ++
        joinCommaInts (missing_years newsItems requestedYears) ++ pys "\n" ++
      pys "WAJIB memberitahu user secara eksplisit bahwa data untuk tahun " ++
        joinCommaInts (missing_years newsItems requestedYears) ++
        pys " tidak tersedia dalam database.\n\n"
    else []
  else []

/-- build_context (app/helpers.py line 85). -/
def build_context (relevantItems : List RItem) (requestedYears : List Int)
    (chunkDb : List ChunkM) : List Char :=
  if relevantItems.isEmpty then
    pys "Tidak ditemukan data yang relevan. Mohon informasikan kepada pengguna."
  else
    render_news (relevantItems.filterMap
        (fun it => match it with | .berita b => some b | _ => none)) ++
      render_docs (augment_chunks
        (relevantItems.filterMap
          (fun it => match it with | .chunk c => some c | _ => none)) chunkDb) ++
      render_missing requestedYears (relevantItems.filterMap
        (fun it => match it with | .berita b => some b | _ => none)) ++
      pys "--- AKHIR DARI KONTEKS ---\n\n"

/-! ### Batch job controller (app/routes/document.py): start, stop and status
of the chunking job.  Time is in minutes; JOB_TIMEOUT_MINUTES = 30. -/

inductive JobStatus
  | idle
  | running
  | stopping
  | completed
  | failed
deriving DecidableEq

structure BatchJob where
  status : JobStatus
  totalItems : Nat
  processedItems : Nat
  startedAt : Option Int
  lastUpdated : Option Int
  completedAt : Option Int
  lastError : Option (List Char)
deriving DecidableEq

/-- A fresh BatchJob row; the column defaults of app/models.py line 101 set
status IDLE and last_updated to the current time. -/
def newBatchJob (now : Int) : BatchJob :=
  { status := .idle, totalItems := 0, processedItems := 0,
    startedAt := none, lastUpdated := some now, completedAt := none, lastError := none }

inductive StartResp
  | accepted
  | alreadyRunning
  | noFiles
  | dirError
deriving DecidableEq

/-- The validate-folder-and-spawn tail of start_chunking_job. -/
def start_job_proceed (now : Int) (dirOk : Bool) (files : Nat) (j : BatchJob) :
    StartResp × BatchJob :=
  if !dirOk then (.dirError, j)
  else if files = 0 then (.noFiles, j)
  else (.accepted,
    { j with status := .running, totalItems := files, processedItems := 0,
             startedAt := some now, lastUpdated := some now, completedAt := none,
             lastError := some (pys "Memulai proses chunking...") })

/-- The guard of start_chunking_job on the fetched-or-created row. -/
def start_job_with (job : BatchJob) (now : Int) (dirOk : Bool) (files : Nat) :
    StartResp × BatchJob :=
  if job.status = .running then
    match job.lastUpdated with
    | some lu =>
      if 30 < now - lu then
        start_job_proceed now dirOk files
          { job with status := .idle,
                     lastError := some (pys "Job direset karena stuck") }
      else (.alreadyRunning, job)
    | none => (.alreadyRunning, job)
  else start_job_proceed now dirOk files job

/-- start_chunking_job (app/routes/document.py line 758): a live RUNNING job
is rejected with 409; a RUNNING job whose heartbeat is older than 30 minutes
is reset to IDLE and the start proceeds; any other status proceeds. -/
def start_chunking_job : Option BatchJob → Int → Bool → Nat → StartResp × BatchJob
  | some j, now, dirOk, files => start_job_with j now dirOk files
  | none, now, dirOk, files => start_job_with (newBatchJob now) now dirOk files

inductive StopResp
  | ok
  | notRunning
  | notFound
deriving DecidableEq

/-- stop_chunking_job (app/routes/document.py line 848): rejected with 400
unless the status is RUNNING or STOPPING. -/
def stop_chunking_job : Option BatchJob → Int → StopResp × Option BatchJob
  | none, _ => (.notFound, none)
  | some job, now =>
    if job.status = .running ∨ job.status = .stopping then
      (.ok, some
        { job with status := .stopping, lastUpdated := some now,
                   lastError := some (pys "Mengirim sinyal berhenti...") })
    else (.notRunning, some job)

/-- The stuck flag of get_chunking_job_status (app/routes/document.py line
896): RUNNING with a heartbeat strictly older than 30 minutes. -/
def job_status_is_stuck : Option BatchJob → Int → Bool
  | none, _ => false
  | some j, now =>
    j.status = .running &&
      (match j.lastUpdated with
       | some lu => 30 < now - lu
       | none => false)

/-! ## Claims -/

/-- Claim C10: semantic_sliding_window_chunker terminates for every input
string: the next start position max(prev start + 1, chosen end - overlap) is
strictly greater than the previous start, so progress is guaranteed even when
the text has no sentence punctuation or whitespace; consequently the loop
result does not depend on the fuel bound once the fuel exceeds the remaining
length, for every chunk size and overlap. -/
theorem C10_chunker_terminates :
    (∀ s e ov : Nat, s < swcNextStart s e ov) ∧
    ∀ (t : List Char) (tlen csz ov s f1 f2 : Nat),
      tlen - s < f1 → tlen - s < f2 →
      swcLoop t tlen csz ov s f1 = swcLoop t tlen csz ov s f2 := by
  constructor
  · intro s e ov
    exact Nat.lt_of_lt_of_le (Nat.lt_succ_self s) (Nat.le_max_left _ _)
  · intro t tlen csz ov s f1 f2 h1 h2
    exact swcLoop_fuel_irrel t tlen csz ov f1 s f2 h1 h2

/-- Witness for C10 at a concrete input without punctuation. -/
theorem C10_witness :
    swcLoop (pys "halodunia") 9 1000 200 0 10 = swcLoop (pys "halodunia") 9 1000 200 0 99 :=
  C10_chunker_terminates.2 (pys "halodunia") 9 1000 200 0 10 99 (by decide) (by decide)

/-- Counterexample for C5: the source accepts a stop request while the job is
STOPPING (app/routes/document.py line 878 rejects only statuses outside
RUNNING and STOPPING), so stop is not accepted only while RUNNING. -/
theorem C5_counterexample :
    (stop_chunking_job
        (some { status := .stopping, totalItems := 3, processedItems := 1,
                startedAt := some 0, lastUpdated := some 0, completedAt := none,
                lastError := none }) 5).1 = .ok ∧
      (JobStatus.stopping ≠ JobStatus.running) := by
  exact ⟨by decide, by decide⟩

/-- Claim C5 (amended): a stop request is rejected whenever the job is IDLE,
and accepted exactly when the job is RUNNING or STOPPING; a start request is
rejected while the job is RUNNING and not stuck; and the status operation
reports the job stuck exactly when it is RUNNING and its last-updated
heartbeat is strictly older than 30 minutes. -/
theorem C5_amended :
    (∀ (j : BatchJob) (now : Int), j.status = .idle →
      (stop_chunking_job (some j) now).1 = .notRunning) ∧
    (∀ (j : BatchJob) (now : Int),
      (stop_chunking_job (some j) now).1 = .ok ↔
        (j.status = .running ∨ j.status = .stopping)) ∧
    (∀ (j : BatchJob) (now : Int) (dirOk : Bool) (files : Nat),
      j.status = .running → job_status_is_stuck (some j) now = false →
      (start_chunking_job (some j) now dirOk files).1 = .alreadyRunning) ∧
    (∀ (job? : Option BatchJob) (now : Int),
      job_status_is_stuck job? now = true ↔
        ∃ j, job? = some j ∧ j.status = .running ∧
          ∃ lu, j.lastUpdated = some lu ∧ 30 < now - lu) := by
  refine ⟨?_, ?_, ?_, ?_⟩
  · intro j now h
    rw [stop_chunking_job, if_neg]
    rw [h]
    rintro (h2 | h2) <;> cases h2
  · intro j now
    constructor
    · intro hok
      by_cases hc : j.status = .running ∨ j.status = .stopping
      · exact hc
      · rw [stop_chunking_job, if_neg hc] at hok
        cases hok
    · intro hc
      rw [stop_chunking_job, if_pos hc]
  · intro j now dirOk files hrun hstuck
    rw [job_status_is_stuck, hrun] at hstuck
    rw [start_chunking_job, start_job_with, if_pos hrun]
    split
    · rename_i lu heq
      rw [heq] at hstuck
      simp only [decide_eq_true_eq, Bool.and_eq_true, decide_eq_false_iff_not,
        Bool.and_eq_false_iff, decide_eq_false_iff_not] at hstuck
      rw [if_neg]
      rcases hstuck with h | h
      · exact absurd trivial h
      · exact h
    · rfl
  · intro job? now
    cases job? with
    | none =>
      simp only [job_status_is_stuck]
      constructor
      · intro h; cases h
      · rintro ⟨j, hj, _⟩; cases hj
    | some j =>
      rw [job_status_is_stuck]
      constructor
      · intro h
        rw [Bool.and_eq_true] at h
        refine ⟨j, rfl, by simpa using h.1, ?_⟩
        cases hlu : j.lastUpdated with
        | none => rw [hlu] at h; cases h.2
        | some lu =>
          rw [hlu] at h
          exact ⟨lu, rfl, by simpa using h.2⟩
      · rintro ⟨j2, hj2, hrun, lu, hlu, hgt⟩
        injection hj2 with hj2
        subst hj2
        rw [hrun, hlu, Bool.and_eq_true]
        exact ⟨by simp, by simpa using hgt⟩

/-- Witness for C5 at concrete inputs: a fresh IDLE row rejects stop, a live
RUNNING row rejects start. -/
theorem C5_witness :
    (stop_chunking_job (some (newBatchJob 0)) 5).1 = .notRunning ∧
    (start_chunking_job
        (some { status := .running, totalItems := 2, processedItems := 0,
                startedAt := some 0, lastUpdated := some 0, completedAt := none,
                lastError := none }) 10 true 2).1 = .alreadyRunning :=
  ⟨C5_amended.1 (newBatchJob 0) 5 rfl,
    C5_amended.2.2.1 _ 10 true 2 rfl (by decide)⟩

/-- Claim C2: a generation failure which the loop classifies as a safety
policy block (not quota-classified, safety-classified) is terminal: the call
returns the safety error at once, no further outcome of the oracle is
consumed whatever it holds, and the credential index is unchanged — for every
state of the credential pool with a live client and a nonempty key list. -/
theorem C2_safety_terminal :
    ∀ (st : GemState) (outs : List GenOutcome) (m : List Char),
      st.clientOk = true → 1 ≤ st.numKeys →
      isQuotaMsg m = false → isSafetyMsg m = true →
      stream_generate_content st (GenOutcome.err m :: outs)
          = (mark_failed_request st,
             .error (pys "Content blocked due to safety settings")) ∧
        (mark_failed_request st).currentKeyIndex = st.currentKeyIndex := by
  intro st outs m hco hk hq hs
  obtain ⟨k, hkek⟩ : ∃ k, st.numKeys = k + 1 := ⟨st.numKeys - 1, by omega⟩
  constructor
  · rw [stream_generate_content, hkek, streamAttempts]
    simp only [hco, hq, hs]
    rfl
  · rw [mark_failed_request]
    cases h : lookupCfg st st.currentKeyIndex
    · rfl
    · rfl

/-- Witness for C2 at a concrete pool state and safety block message. -/
theorem C2_witness :
    stream_generate_content
        { numKeys := 3, currentKeyIndex := 1, clientOk := true,
          cfgs := [(1, ⟨false, none, none, 0, 0⟩), (2, ⟨false, none, none, 5, 1⟩)],
          now := 100 }
        [GenOutcome.err (pys "Response blocked due to SAFETY policy")]
        = (mark_failed_request
            { numKeys := 3, currentKeyIndex := 1, clientOk := true,
              cfgs := [(1, ⟨false, none, none, 0, 0⟩), (2, ⟨false, none, none, 5, 1⟩)],
              now := 100 },
           .error (pys "Content blocked due to safety settings")) ∧
      (mark_failed_request
          { numKeys := 3, currentKeyIndex := 1, clientOk := true,
            cfgs := [(1, ⟨false, none, none, 0, 0⟩), (2, ⟨false, none, none, 5, 1⟩)],
            now := 100 }).currentKeyIndex = 1 :=
  C2_safety_terminal _ [] _ (by decide) (by decide) (by decide) (by decide)

/-- Counterexample for C9: the source computes the fragment decay from
created_at (app/helpers.py line 559), not from the last-modified timestamp
updated_at; a chunk created 365 days ago but modified 65 days ago scores 0,
not the claimed 300/365. -/
theorem C9_counterexample :
    recency_score
        (.chunk { id := 7, documentId := 1, pageNumber := 3, content := pys "data",
                  metaType := some (pys "text"), createdOrd := 0, updatedOrd := 300,
                  document := none }) [] 365
      ≠ max 0 (1 - ((365 - (300 : Int) : Int) : ℚ) / 365) := by
  show max (0 : ℚ) (1 - ((365 - (0 : Int) : Int) : ℚ) / 365)
    ≠ max 0 (1 - ((365 - (300 : Int) : Int) : ℚ) / 365)
  have h1 : (1 : ℚ) - ((365 - (0 : Int) : Int) : ℚ) / 365 = 0 := by norm_num
  have h2 : (1 : ℚ) - ((365 - (300 : Int) : Int) : ℚ) / 365 = 300 / 365 := by norm_num
  rw [h1, h2, max_self, max_eq_right (by norm_num : (0 : ℚ) ≤ 300 / 365)]
  norm_num

/-- Claim C9 (amended): for every document fragment passed to the reranker,
its recency score — and through it the weighted final score — uses
max(0, 1 - days_since/365) with days_since counted from the fragment
creation timestamp created_at (not from the last-modified timestamp). -/
theorem C9_amended :
    ∀ (dbF : List FeedbackRec) (l : List (RItem × ℚ)) (years : List Int)
      (today : Int) (c : ChunkM) (d : ℚ),
      recency_score (.chunk c) years today
          = max 0 (1 - ((today - c.createdOrd : Int) : ℚ) / 365) ∧
        final_score dbF l years today (.chunk c) d
          = relevance_score d * (weights_for years).relevance +
            feedback_score dbF l (.chunk c) * (weights_for years).feedback +
            max 0 (1 - ((today - c.createdOrd : Int) : ℚ) / 365) *
              (weights_for years).recency +
            content_type_score (.chunk c) * (weights_for years).contentType := by
  intro dbF l years today c d
  exact ⟨rfl, rfl⟩

/-- A references page used to separate the exclusion tests of the source from
the four tests the claim enumerates: twelve lines, over fifty characters, two
numbered-column markers, a bibliography heading on the first line. -/
def refPage : List Char :=
  pys "Referensi\nBadan Pusat Statistik Provinsi Gorontalo\nSumber data utama\n(1)\n(2)\nbaris enam\nbaris tujuh\nbaris delapan\nbaris sembilan\nbaris sepuluh\nbaris sebelas\nbaris duabelas"

set_option maxRecDepth 8000 in
/-- Counterexample for C8: this references page passes all four exclusion
tests the claim enumerates and carries the structural signal, so the claim
classifies it as a table; the source excludes it through its additional
bibliography-heading test and returns excluded_page. -/
theorem C8_counterexample :
    detect_table_page refPage 2 = (false, "excluded_page") ∧
      spec_excluded_page refPage 2 = false ∧
      (detect_column_numbering refPage).1 = true :=
  ⟨by decide, by decide, by decide⟩

/-- Claim C8 (amended): the classifier applies the exclusion tests first —
which beyond the four enumerated by the claim also exclude bibliography or
references headings, and apply the dot-leader ratio only to pages with more
than five lines — and for a non-excluded page it returns table exactly when
the structural signal (at least two distinct parenthesized integer tokens)
fires, whether or not a keyword fires, rejecting otherwise. -/
theorem C8_amended :
    ∀ (raw : List Char) (pageNum : Nat),
      (is_excluded_page raw pageNum = true →
        detect_table_page raw pageNum = (false, "excluded_page")) ∧
      (is_excluded_page raw pageNum = false →
        (detect_table_page raw pageNum).1 = (detect_column_numbering raw).1) := by
  intro raw pageNum
  constructor
  · intro h
    rw [detect_table_page, if_pos h]
  · intro h
    rw [detect_table_page, if_neg (by rw [h]; exact Bool.false_ne_true)]
    cases hkw : ((detect_table_keyword raw).1 || (detect_lampiran_keyword raw).1) <;>
      cases hstr : (detect_column_numbering raw).1 <;>
        simp [hkw, hstr]

/-- Witness for C8 at a concrete page: a one-character page one is excluded,
and a plain structural page is classified as a table. -/
theorem C8_witness :
    detect_table_page (pys "x") 1 = (false, "excluded_page") ∧
      (detect_table_page
        (pys "Angka produksi menurut kabupaten dengan rincian kolom (1) dan (2) x")
        2).1
      = (detect_column_numbering
          (pys "Angka produksi menurut kabupaten dengan rincian kolom (1) dan (2) x")).1 :=
  ⟨(C8_amended (pys "x") 1).1 (by decide),
    (C8_amended (pys "Angka produksi menurut kabupaten dengan rincian kolom (1) dan (2) x")
      2).2 (by decide)⟩

/-- Counterexample for C6: in this 2000 character text (999 letters, one
space, 1000 letters) the single space of the normalized text appears in no
returned chunk: every window that contains it ends exactly on it, so it is
always cut away, and the final chunk starts beyond it.  The claim that every
character of the normalized text appears in at least one chunk fails. -/
theorem C6_counterexample :
    ' ' ∈ normalizeWs lostSpaceText ∧
      ∀ c ∈ semantic_sliding_window_chunker lostSpaceText 1000 200, ' ' ∉ c := by
  have hne : lostSpaceText ≠ [] := by
    intro h
    have h2 := lostSpaceText_length
    rw [h] at h2
    exact absurd h2 (by decide)
  constructor
  · rw [lostSpaceText_normalize, lostSpaceText]
    exact List.mem_append.mpr (Or.inr (List.mem_cons_self _ _))
  · intro c hc
    rw [semantic_sliding_window_chunker, if_neg hne, lostSpaceText_normalize,
      lostSpaceText_length] at hc
    exact lostSpaceText_loop 2001 0 c hc

/-- Claim C6 (amended): every non-space character of the normalized text
appears in at least one chunk returned by semantic_sliding_window_chunker,
for every positive chunk size and every overlap; only space characters on
unlucky window boundaries can be dropped. -/
theorem C6_amended :
    ∀ (text : List Char) (csz ov i : Nat), 1 ≤ csz →
      ∀ hi : i < (normalizeWs text).length,
        (normalizeWs text).get ⟨i, hi⟩ ≠ ' ' →
        ∃ c ∈ semantic_sliding_window_chunker text csz ov,
          (normalizeWs text).get ⟨i, hi⟩ ∈ c := by
  intro text csz ov i hcsz hi hne
  have htne : text ≠ [] := by
    intro h
    subst h
    rw [show normalizeWs [] = [] from rfl] at hi
    simp at hi
  rw [semantic_sliding_window_chunker, if_neg htne]
  exact swcLoop_covers hcsz
    (fun c hc hw => normalizeWs_ws_eq_space hc hw)
    ((normalizeWs text).length + 1) 0 i (Nat.zero_le i) hi (by omega) hne

/-- Witness for C6 at a concrete input. -/
theorem C6_witness :
    ∃ c ∈ semantic_sliding_window_chunker (pys "ab") 1000 200,
      (normalizeWs (pys "ab")).get ⟨0, by decide⟩ ∈ c :=
  C6_amended (pys "ab") 1000 200 0 (by decide) (by decide) (by decide)

/-- In the stable descending sort, an item all of whose scored entries carry a
strictly greater score precedes every occurrence of an item with a smaller
score. -/
lemma stableSortDesc_map_fst_order (scored : List (RItem × ℚ)) (A B : RItem)
    (sA sB : ℚ)
    (hA : ∀ p ∈ scored, p.1 = A → p.2 = sA)
    (hB : ∀ p ∈ scored, p.1 = B → p.2 = sB)
    (hlt : sB < sA) (hAB : A ≠ B) :
    ∀ (i j : Fin (((stableSortDesc (fun p => p.2) scored).map
        (fun p => p.1)).length)),
      ((stableSortDesc (fun p => p.2) scored).map (fun p => p.1)).get i = B →
      ((stableSortDesc (fun p => p.2) scored).map (fun p => p.1)).get j = A →
      (j : Nat) < (i : Nat) := by
  intro i j hib hja
  have hlen : ((stableSortDesc (fun p : RItem × ℚ => p.2) scored).map
      (fun p => p.1)).length = (stableSortDesc (fun p : RItem × ℚ => p.2) scored).length :=
    List.length_map _ _
  have hi2 : (i : Nat) < (stableSortDesc (fun p : RItem × ℚ => p.2) scored).length := by
    rw [← hlen]; exact i.2
  have hj2 : (j : Nat) < (stableSortDesc (fun p : RItem × ℚ => p.2) scored).length := by
    rw [← hlen]; exact j.2
  have hgi : ((stableSortDesc (fun p : RItem × ℚ => p.2) scored).get ⟨i, hi2⟩).1 = B := by
    rw [← hib]
    simp only [List.get_eq_getElem, List.getElem_map]
  have hgj : ((stableSortDesc (fun p : RItem × ℚ => p.2) scored).get ⟨j, hj2⟩).1 = A := by
    rw [← hja]
    simp only [List.get_eq_getElem, List.getElem_map]
  have hsi : ((stableSortDesc (fun p : RItem × ℚ => p.2) scored).get ⟨i, hi2⟩).2 = sB :=
    hB _ (mem_stableSortDesc (List.get_mem _ _ _)) hgi
  have hsj : ((stableSortDesc (fun p : RItem × ℚ => p.2) scored).get ⟨j, hj2⟩).2 = sA :=
    hA _ (mem_stableSortDesc (List.get_mem _ _ _)) hgj
  rcases Nat.lt_trichotomy (j : Nat) (i : Nat) with h | h | h
  · exact h
  · exfalso
    apply hAB
    have hfin : (⟨(j : Nat), hj2⟩ :
        Fin (stableSortDesc (fun p : RItem × ℚ => p.2) scored).length)
        = ⟨(i : Nat), hi2⟩ := Fin.ext h
    rw [← hgj, ← hgi, hfin]
  · exfalso
    have hp := (List.pairwise_iff_get.mp
      (pairwise_stableSortDesc (fun p : RItem × ℚ => p.2) scored)) ⟨i, hi2⟩ ⟨j, hj2⟩ h
    rw [hsi, hsj] at hp
    exact absurd hp (not_le_of_lt hlt)

/-- Claim C3 (amended): under requested-year weighting, for two reranked news
items with equal relevance and equal feedback, where the year of item a is
requested and the year of item b is not, rerank_with_dss gives a recency 1.0
and places a strictly before b, provided b was released strictly in the past
(a news item released today also scores recency 1.0, ties, and the stable
sort keeps it in input order). -/
theorem C3_amended :
    ∀ (dbF : List FeedbackRec) (today : Int) (l : List (RItem × ℚ))
      (years : List Int) (a b : BeritaM) (dA dB : ℚ),
      years ≠ [] →
      a.tanggalRilis.year ∈ years → b.tanggalRilis.year ∉ years →
      (RItem.berita a, dA) ∈ l → (RItem.berita b, dB) ∈ l →
      (∀ d, (RItem.berita a, d) ∈ l → d = dA) →
      (∀ d, (RItem.berita b, d) ∈ l → d = dB) →
      dA = dB →
      feedback_lookup dbF l (pys "berita_bps") a.id
        = feedback_lookup dbF l (pys "berita_bps") b.id →
      1 ≤ today - b.tanggalRilis.ord →
      recency_score (.berita a) years today = 1 ∧
      ∀ (i j : Fin (rerank_with_dss dbF today l years).length),
        (rerank_with_dss dbF today l years).get i = .berita b →
        (rerank_with_dss dbF today l years).get j = .berita a →
        (j : Nat) < (i : Nat) := by
  intro dbF today l years a b dA dB hyne hay hby haml hbml hada hbdb hdab hfb hpast
  have hrecA : recency_score (.berita a) years today = 1 := by
    rw [recency_score, if_pos ⟨hyne, hay⟩]
  refine ⟨hrecA, ?_⟩
  have hrecB : recency_score (.berita b) years today < 1 := by
    rw [recency_score, if_neg (fun h => hby h.2)]
    have h1 : (1 : ℚ) ≤ ((today - b.tanggalRilis.ord : Int) : ℚ) := by
      exact_mod_cast hpast
    apply max_lt
    · norm_num
    · have h2 : (0 : ℚ) < ((today - b.tanggalRilis.ord : Int) : ℚ) / 365 := by
        apply div_pos
        · linarith
        · norm_num
      linarith
  have hfs : feedback_score dbF l (.berita a) = feedback_score dbF l (.berita b) := by
    simp only [feedback_score]
    rw [hfb]
  have hwrec : (0 : ℚ) < (weights_for years).recency := by
    rw [weights_for, if_pos hyne]
    norm_num
  have hsAB : final_score dbF l years today (.berita b) dB
      < final_score dbF l years today (.berita a) dA := by
    rw [final_score, final_score, hdab, hrecA, hfs]
    have hct : content_type_score (.berita a) = content_type_score (.berita b) := rfl
    rw [hct]
    have hmul := mul_lt_mul_of_pos_right hrecB hwrec
    linarith
  have hlne : l ≠ [] := by
    intro h
    rw [h] at haml
    cases haml
  have hre : rerank_with_dss dbF today l years
      = (stableSortDesc (fun p => p.2)
          (l.map (fun p => (p.1, final_score dbF l years today p.1 p.2)))).map
          (fun p => p.1) := by
    rw [rerank_with_dss, if_neg hlne]
  rw [hre]
  apply stableSortDesc_map_fst_order _ (RItem.berita a) (RItem.berita b)
    (final_score dbF l years today (.berita a) dA)
    (final_score dbF l years today (.berita b) dB)
  · intro p hp hp1
    obtain ⟨q, hq, hfq⟩ := List.mem_map.mp hp
    rw [← hfq] at hp1 ⊢
    simp only at hp1 ⊢
    rw [hp1]
    rw [hada q.2 (by rw [← hp1]; exact hq)]
  · intro p hp hp1
    obtain ⟨q, hq, hfq⟩ := List.mem_map.mp hp
    rw [← hfq] at hp1 ⊢
    simp only at hp1 ⊢
    rw [hp1]
    rw [hbdb q.2 (by rw [← hp1]; exact hq)]
  · exact hsAB
  · intro h
    injection h with h2
    rw [h2] at hay
    exact hby hay

def c3A : BeritaM :=
  ⟨1, pys "Berita NTP 2023", pys "ringkasan", pys "tautan", ⟨2023, 5, 1, 19000⟩⟩

/-- A news item released today (ordinal 20000 with today = 20000). -/
def c3B : BeritaM :=
  ⟨2, pys "Berita terbaru", pys "ringkasan", pys "tautan", ⟨2026, 10, 1, 20000⟩⟩

/-- A news item released 500 days in the past. -/
def c3Wb : BeritaM :=
  ⟨2, pys "Berita lama", pys "ringkasan", pys "tautan", ⟨2026, 1, 1, 19500⟩⟩

/-- Counterexample for C3: item b, a news item released today whose year is
not requested, has decay recency max(0, 1 - 0/365) = 1.0 and ties with the
requested-year item a on every criterion; the stable sort keeps the tie in
input order, so a is not placed before b as the claim requires. -/
theorem C3_counterexample :
    rerank_with_dss [] 20000 [(.berita c3B, 1/2), (.berita c3A, 1/2)] [2023]
        = [.berita c3B, .berita c3A] ∧
      recency_score (.berita c3A) [2023] 20000 = 1 ∧
      recency_score (.berita c3B) [2023] 20000 = 1 ∧
      c3A.tanggalRilis.year ∈ [(2023 : Int)] ∧
      c3B.tanggalRilis.year ∉ [(2023 : Int)] := by
  have hrA : recency_score (.berita c3A) [2023] 20000 = 1 := by
    simp only [recency_score]
    rw [if_pos ⟨by simp, by simp [c3A]⟩]
  have hrB : recency_score (.berita c3B) [2023] 20000 = 1 := by
    simp only [recency_score, c3B]
    rw [if_neg (by norm_num)]
    have h0 : ((20000 - (20000 : Int) : Int) : ℚ) = 0 := by norm_num
    rw [h0]
    norm_num
  have hfsB : final_score [] [(.berita c3B, 1/2), (.berita c3A, 1/2)] [2023] 20000
      (.berita c3B) (1/2) = 21/40 := by
    rw [final_score, weights_for, if_pos (by simp)]
    rw [hrB]
    simp only [relevance_score, feedback_score, feedback_lookup, feedback_filtered,
      content_type_score]
    norm_num
  have hfsA : final_score [] [(.berita c3B, 1/2), (.berita c3A, 1/2)] [2023] 20000
      (.berita c3A) (1/2) = 21/40 := by
    rw [final_score, weights_for, if_pos (by simp)]
    rw [hrA]
    simp only [relevance_score, feedback_score, feedback_lookup, feedback_filtered,
      content_type_score]
    norm_num
  refine ⟨?_, hrA, hrB, by simp [c3A], by simp [c3B]⟩
  rw [rerank_with_dss, if_neg (List.cons_ne_nil _ _), List.map_cons, List.map_cons,
    List.map_nil]
  simp only
  rw [hfsB, hfsA]
  simp only [stableSortDesc, List.foldl_cons, List.foldl_nil, insDescBy,
    lt_self_iff_false, if_false, List.map_cons, List.map_nil]

/-- Witness for C3 at a concrete input with item b strictly in the past. -/
theorem C3_witness :
    recency_score (.berita c3A) [2023] 20000 = 1 ∧
      ∀ (i j : Fin ((rerank_with_dss [] 20000
          [(.berita c3A, 1/2), (.berita c3Wb, 1/2)] [2023]).length)),
        (rerank_with_dss [] 20000
          [(.berita c3A, 1/2), (.berita c3Wb, 1/2)] [2023]).get i = .berita c3Wb →
        (rerank_with_dss [] 20000
          [(.berita c3A, 1/2), (.berita c3Wb, 1/2)] [2023]).get j = .berita c3A →
        (j : Nat) < (i : Nat) :=
  C3_amended [] 20000 [(.berita c3A, 1/2), (.berita c3Wb, 1/2)] [2023] c3A c3Wb
    (1/2) (1/2)
    (by simp)
    (by simp [c3A])
    (by simp [c3Wb])
    (List.mem_cons_self _ _)
    (by simp)
    (by
      intro d hd
      simp only [List.mem_cons, List.mem_singleton, Prod.mk.injEq] at hd
      rcases hd with ⟨_, h⟩ | ⟨h, _⟩ | h
      · exact h
      · exact absurd h (by simp [c3A, c3Wb])
      · cases h)
    (by
      intro d hd
      simp only [List.mem_cons, List.mem_singleton, Prod.mk.injEq] at hd
      rcases hd with ⟨h, _⟩ | ⟨_, h⟩ | h
      · exact absurd h (by simp [c3A, c3Wb])
      · exact h
      · cases h)
    rfl
    rfl
    (by norm_num [c3Wb])

/-! ### Substring facts used for the context-assembly claim -/

lemma litAt_append_of {p a : List Char} (h : litAt p a = true) (b : List Char) :
    litAt p (a ++ b) = true := by
  induction p generalizing a with
  | nil => rfl
  | cons c cs ih =>
    cases a with
    | nil => exact (Bool.false_ne_true h).elim
    | cons x xs =>
      rw [litAt, Bool.and_eq_true] at h
      rw [List.cons_append, litAt, Bool.and_eq_true]
      exact ⟨h.1, ih h.2⟩

lemma litAt_refl (p : List Char) : litAt p p = true := by
  induction p with
  | nil => rfl
  | cons c cs ih =>
    rw [litAt, Bool.and_eq_true]
    exact ⟨by simp, ih⟩

lemma containsL_of_litAt {p l : List Char} (h : litAt p l = true) : containsL p l = true := by
  cases l with
  | nil => exact h
  | cons c cs =>
    rw [containsL, Bool.or_eq_true]
    exact Or.inl h

lemma containsL_self (p : List Char) : containsL p p = true :=
  containsL_of_litAt (litAt_refl p)

lemma containsL_append_right {p b : List Char} (h : containsL p b = true) (a : List Char) :
    containsL p (a ++ b) = true := by
  induction a with
  | nil => exact h
  | cons x xs ih =>
    rw [List.cons_append, containsL, Bool.or_eq_true]
    exact Or.inr ih

lemma litAt_nil_true {p : List Char} (h : litAt p [] = true) : p = [] := by
  cases p with
  | nil => rfl
  | cons c cs => exact (Bool.false_ne_true h).elim

lemma containsL_append_left {p a : List Char} (h : containsL p a = true) (b : List Char) :
    containsL p (a ++ b) = true := by
  induction a with
  | nil =>
    have hp := litAt_nil_true h
    subst hp
    exact containsL_of_litAt rfl
  | cons x xs ih =>
    rw [containsL, Bool.or_eq_true] at h
    rw [List.cons_append, containsL, Bool.or_eq_true]
    rcases h with h | h
    · exact Or.inl (litAt_append_of h b)
    · exact Or.inr (ih h)

lemma containsL_joinWithStr {p sep : List Char} :
    ∀ {parts : List (List Char)}, p ∈ parts → containsL p (joinWithStr sep parts) = true := by
  intro parts
  induction parts with
  | nil => intro h; cases h
  | cons x xs ih =>
    intro h
    rcases List.mem_cons.mp h with rfl | h2
    · cases xs with
      | nil => exact containsL_self p
      | cons y ys =>
        rw [joinWithStr]
        exact containsL_append_left (containsL_append_left (containsL_self p) sep) _
    · cases xs with
      | nil => cases h2
      | cons y ys =>
        rw [joinWithStr]
        exact containsL_append_right (ih h2) _

lemma mem_insSortedDedupAsc_self (x : Int) : ∀ (l : List Int), x ∈ insSortedDedupAsc x l := by
  intro l
  induction l with
  | nil => exact List.mem_singleton_self x
  | cons y ys ih =>
    rw [insSortedDedupAsc]
    by_cases h1 : x < y
    · rw [if_pos h1]; exact List.mem_cons_self _ _
    · rw [if_neg h1]
      by_cases h2 : x = y
      · rw [if_pos h2, h2]; exact List.mem_cons_self _ _
      · rw [if_neg h2]; exact List.mem_cons_of_mem _ ih

lemma mem_insSortedDedupAsc_of_mem {z x : Int} :
    ∀ {l : List Int}, z ∈ l → z ∈ insSortedDedupAsc x l := by
  intro l
  induction l with
  | nil => intro h; cases h
  | cons y ys ih =>
    intro h
    rw [insSortedDedupAsc]
    by_cases h1 : x < y
    · rw [if_pos h1]; exact List.mem_cons_of_mem _ h
    · rw [if_neg h1]
      by_cases h2 : x = y
      · rw [if_pos h2]; exact h
      · rw [if_neg h2]
        rcases List.mem_cons.mp h with rfl | h3
        · exact List.mem_cons_self _ _
        · exact List.mem_cons_of_mem _ (ih h3)

lemma mem_sortedSetAsc_of_mem {x : Int} {l : List Int} (h : x ∈ l) : x ∈ sortedSetAsc l := by
  rw [sortedSetAsc]
  have hinv : ∀ (l2 acc : List Int), x ∈ acc ∨ x ∈ l2 →
      x ∈ l2.foldl (fun acc y => insSortedDedupAsc y acc) acc := by
    intro l2
    induction l2 with
    | nil =>
      intro acc h2
      rcases h2 with h2 | h2
      · exact h2
      · cases h2
    | cons y ys ih =>
      intro acc h2
      rw [List.foldl_cons]
      apply ih
      rcases h2 with h2 | h2
      · exact Or.inl (mem_insSortedDedupAsc_of_mem h2)
      · rcases List.mem_cons.mp h2 with rfl | h3
        · exact Or.inl (mem_insSortedDedupAsc_self _ _)
        · exact Or.inr h3
  exact hinv l [] (Or.inr h)

/-- The concrete fragment used to witness the context-assembly theorem. -/
def c4Chunk : ChunkM :=
  ⟨1, 1, 1, pys "Produksi padi.", none, 738000, 738000, some ⟨pys "laporan.pdf", none⟩⟩

/-- Claim C4 (counterexample to the original wording): with a requested year
2022 and NO surviving news for it, but an EMPTY retrieved-item list,
build_context returns the generic no-data message — the explicit
data-unavailable flag for 2022 is silently omitted (helpers.py line 90 returns
before the missing-years block at line 206 is reached). -/
theorem C4_counterexample :
    build_context [] [2022] [] =
        pys "Tidak ditemukan data yang relevan. Mohon informasikan kepada pengguna." ∧
      containsL (pys "Data yang TIDAK ditemukan untuk tahun: ")
        (build_context [] [2022] []) = false := by
  constructor
  · rfl
  · decide

/-- Claim C4 (amended): for every call to build_context with a NON-EMPTY
retrieved-item list, each requested year X with no surviving news item of
release year X is flagged explicitly: the assembled context contains the
data-unavailable header and the decimal rendering of X.  (When the
retrieved-item list is empty the source returns the generic no-data message
instead, without any per-year flag; see the counterexample.) -/
theorem C4_amended (items : List RItem) (years : List Int) (chunkDb : List ChunkM) (X : Int)
    (hne : items ≠ []) (hXy : X ∈ years)
    (hnoX : ∀ b : BeritaM, RItem.berita b ∈ items → b.tanggalRilis.year ≠ X) :
    containsL (pys "Data yang TIDAK ditemukan untuk tahun: ")
        (build_context items years chunkDb) = true ∧
      containsL ((toString X).data) (build_context items years chunkDb) = true := by
  have hempty : items.isEmpty = false := by
    cases items with
    | nil => exact absurd rfl hne
    | cons a l => rfl
  rw [build_context, if_neg (by rw [hempty]; exact Bool.false_ne_true)]
  have hXnews : ∀ b ∈ items.filterMap
      (fun it => match it with | RItem.berita b => some b | _ => none),
      b.tanggalRilis.year ≠ X := by
    intro b hb
    obtain ⟨it, hit, hfit⟩ := List.mem_filterMap.mp hb
    cases it with
    | berita b2 =>
      simp only [Option.some.injEq] at hfit
      subst hfit
      exact hnoX b2 hit
    | chunk c => simp at hfit
  have hXmiss : X ∈ missing_years
      (items.filterMap (fun it => match it with | RItem.berita b => some b | _ => none))
      years := by
    apply mem_sortedSetAsc_of_mem
    rw [List.mem_filter]
    refine ⟨hXy, ?_⟩
    rw [Bool.not_eq_true', List.any_eq_false]
    intro n hn
    simp only [decide_eq_true_eq]
    exact hXnews n hn
  have hmiss_ne : missing_years
      (items.filterMap (fun it => match it with | RItem.berita b => some b | _ => none))
      years ≠ [] := List.ne_nil_of_mem hXmiss
  have hflag : containsL (pys "Data yang TIDAK ditemukan untuk tahun: ")
      (render_missing years (items.filterMap
        (fun it => match it with | RItem.berita b => some b | _ => none))) = true := by
    rw [render_missing, if_pos (List.ne_nil_of_mem hXy), if_pos hmiss_ne]
    exact containsL_append_left (containsL_append_left (containsL_append_left
      (containsL_append_left (containsL_append_left
        (containsL_append_right (containsL_self _) _) _) _) _) _) _
  have hXstr : containsL ((toString X).data)
      (render_missing years (items.filterMap
        (fun it => match it with | RItem.berita b => some b | _ => none))) = true := by
    rw [render_missing, if_pos (List.ne_nil_of_mem hXy), if_pos hmiss_ne]
    have hmem : (toString X).data ∈
        (missing_years (items.filterMap
          (fun it => match it with | RItem.berita b => some b | _ => none)) years).map
          (fun y => (toString y).data) :=
      List.mem_map_of_mem _ hXmiss
    have hjoin : containsL ((toString X).data)
        (joinCommaInts (missing_years (items.filterMap
          (fun it => match it with | RItem.berita b => some b | _ => none)) years)) = true := by
      rw [joinCommaInts]
      exact containsL_joinWithStr hmem
    exact containsL_append_left (containsL_append_left (containsL_append_left
      (containsL_append_left (containsL_append_right hjoin _) _) _) _) _
  refine ⟨?_, ?_⟩
  · exact containsL_append_left (containsL_append_right hflag _) _
  · exact containsL_append_left (containsL_append_right hXstr _) _

/-- The amended context-assembly theorem holds at a concrete call: one
retrieved PDF fragment, requested year 2022, no news at all. -/
theorem C4_witness :
    containsL (pys "Data yang TIDAK ditemukan untuk tahun: ")
        (build_context [RItem.chunk c4Chunk] [2022] []) = true ∧
      containsL ((toString (2022 : Int)).data)
        (build_context [RItem.chunk c4Chunk] [2022] []) = true :=
  C4_amended [RItem.chunk c4Chunk] [2022] [] 2022
    (List.cons_ne_nil _ _) (List.mem_singleton_self _)
    (by intro b hb; simp at hb)

/-! ### Case analysis of the stitching loops -/

lemma stitchBack_stop {lu : Int → Option ChunkM} {fuel : Nat} {cp : Int}
    {m : List (Nat × ChunkM)} (hcp : cp - 1 ≤ 0) :
    stitchBack lu (fuel + 1) cp m = m := by
  simp only [stitchBack, if_pos hcp]

lemma stitchBack_none {lu : Int → Option ChunkM} {fuel : Nat} {cp : Int}
    {m : List (Nat × ChunkM)} (hcp : ¬ cp - 1 ≤ 0) (hl : lu (cp - 1) = none) :
    stitchBack lu (fuel + 1) cp m = m := by
  simp only [stitchBack, if_neg hcp, hl]

lemma amHas_one {a k : Nat} {c : ChunkM} (h : a ≠ k) : amHas [(a, c)] k = false := by
  simp [amHas, List.find?, h]

lemma amHas_two {a b k : Nat} {c d : ChunkM} (h1 : a ≠ k) (h2 : b ≠ k) :
    amHas [(a, c), (b, d)] k = false := by
  simp [amHas, List.find?, h1, h2]

lemma stitchBack_add {lu : Int → Option ChunkM} {fuel : Nat} {cp : Int}
    {m : List (Nat × ChunkM)} {pc : ChunkM} (hcp : ¬ cp - 1 ≤ 0)
    (hl : lu (cp - 1) = some pc) (hhas : amHas m pc.id = false)
    (hm : continuationMatch pc.content = true) :
    stitchBack lu (fuel + 1) cp m = stitchBack lu fuel (cp - 1) (m ++ [(pc.id, pc)]) := by
  simp only [stitchBack, if_neg hcp, hl, hhas, Bool.false_eq_true, if_false, hm, if_true]
  rw [amInsert, if_neg (by simp [hhas])]

lemma stitchFwd_none {lu : Int → Option ChunkM} {cp : Int} {m : List (Nat × ChunkM)}
    (hl : lu (cp + 1) = none) : ∀ fuel, stitchFwd lu fuel cp m = m
  | 0 => rfl
  | fuel + 1 => by simp only [stitchFwd, hl]

/-- Fragments of document 9, pages 1-4; pages 2-4 carry a continuation-table
marker, page 1 (the table origin) does not. -/
def c7a : ChunkM := ⟨11, 9, 1, pys "Pendahuluan", none, 738000, 738000, none⟩

def c7b : ChunkM := ⟨12, 9, 2, pys "Lanjutan Tabel 1.2 Produksi", none, 738000, 738000, none⟩

def c7c : ChunkM := ⟨13, 9, 3, pys "Lanjutan Tabel 1.2 Produksi", none, 738000, 738000, none⟩

def c7d : ChunkM := ⟨14, 9, 4, pys "Lanjutan Tabel 1.2 Produksi", none, 738000, 738000, none⟩

def c7db : List ChunkM := [c7a, c7b, c7c, c7d]

/-- Claim C7 (counterexample to the original wording): with P = 2, pages
P, P+1, P+2 all matching the continuation marker and only the page-P+2
fragment retrieved, the stitched set is NOT exactly the fragments of pages
P..P+2: the backward loop adds a page first and tests the marker afterwards
(helpers.py lines 122-126), so the non-matching page-1 fragment below the
claimed origin P is added as well. -/
theorem C7_counterexample :
    continuationMatch c7b.content = true ∧ continuationMatch c7c.content = true ∧
      continuationMatch c7d.content = true ∧ continuationMatch c7a.content = false ∧
      augment_chunks [c7d] c7db = [c7d, c7c, c7b, c7a] ∧
      c7a ∈ augment_chunks [c7d] c7db ∧ c7a ∉ [c7b, c7c, c7d] := by
  refine ⟨rfl, rfl, rfl, rfl, by decide, by decide, by decide⟩

/-- Claim C7 (amended): if pages P, P+1, P+2 of one document all match the
continuation marker, only the page-P+2 fragment is retrieved, the table has
no page at P-1 visible to the stitcher (or P is page one) and none at P+3,
then the stitched fragment list is exactly the fragments of pages P+2, P+1
and P, each once.  (Without the page-P-1 condition the add-then-test backward
loop also pulls in the page below P; see the counterexample.) -/
theorem C7_amended (P : Nat) (cP0 cP1 cP2 : ChunkM) (chunkDb : List ChunkM)
    (hP : 1 ≤ P)
    (hp2 : cP2.pageNumber = (P : Int) + 2)
    (hl2 : chunkAtPage (relatedOf [cP2] chunkDb) cP2.documentId ((P : Int) + 1) = some cP1)
    (hl1 : chunkAtPage (relatedOf [cP2] chunkDb) cP2.documentId (P : Int) = some cP0)
    (hl0 : P = 1 ∨
      chunkAtPage (relatedOf [cP2] chunkDb) cP2.documentId ((P : Int) - 1) = none)
    (hl3 : chunkAtPage (relatedOf [cP2] chunkDb) cP2.documentId ((P : Int) + 3) = none)
    (hm2 : continuationMatch cP2.content = true)
    (hm1 : continuationMatch cP1.content = true)
    (hm0 : continuationMatch cP0.content = true)
    (hne21 : cP2.id ≠ cP1.id) (hne20 : cP2.id ≠ cP0.id) (hne10 : cP1.id ≠ cP0.id) :
    augment_chunks [cP2] chunkDb = [cP2, cP1, cP0] := by
  have hl2' : chunkAtPage (relatedOf [cP2] chunkDb) cP2.documentId ((P : Int) + 2 - 1) =
      some cP1 := by
    rw [show ((P : Int) + 2 - 1) = (P : Int) + 1 from by omega]
    exact hl2
  have hl1' : chunkAtPage (relatedOf [cP2] chunkDb) cP2.documentId ((P : Int) + 1 - 1) =
      some cP0 := by
    rw [show ((P : Int) + 1 - 1) = (P : Int) from by omega]
    exact hl1
  have hl3' : chunkAtPage (relatedOf [cP2] chunkDb) cP2.documentId ((P : Int) + 2 + 1) =
      none := by
    rw [show ((P : Int) + 2 + 1) = (P : Int) + 3 from by omega]
    exact hl3
  rw [augment_chunks, if_neg (by simp)]
  rw [show (([cP2].foldl (fun m c => amInsert m c.id c) []) : List (Nat × ChunkM)) =
    [(cP2.id, cP2)] from rfl]
  rw [List.foldl_cons, List.foldl_nil]
  rw [if_pos hm2, hp2]
  rw [show (((P : Int) + 2).toNat) = P + 1 + 1 from by omega]
  rw [stitchBack_add (by omega) hl2' (amHas_one hne21) hm1]
  rw [show ([(cP2.id, cP2)] ++ [(cP1.id, cP1)] : List (Nat × ChunkM)) =
    [(cP2.id, cP2), (cP1.id, cP1)] from rfl]
  rw [show ((P : Int) + 2 - 1) = (P : Int) + 1 from by omega]
  rw [stitchBack_add (by omega) hl1' (amHas_two hne20 hne10) hm0]
  rw [show ([(cP2.id, cP2), (cP1.id, cP1)] ++ [(cP0.id, cP0)] : List (Nat × ChunkM)) =
    [(cP2.id, cP2), (cP1.id, cP1), (cP0.id, cP0)] from rfl]
  rw [show ((P : Int) + 1 - 1) = (P : Int) from by omega]
  have hback : stitchBack (chunkAtPage (relatedOf [cP2] chunkDb) cP2.documentId) P (P : Int)
      [(cP2.id, cP2), (cP1.id, cP1), (cP0.id, cP0)] =
      [(cP2.id, cP2), (cP1.id, cP1), (cP0.id, cP0)] := by
    by_cases hp1 : P = 1
    · subst hp1
      rw [show (1 : Nat) = 0 + 1 from rfl]
      exact stitchBack_stop (by omega)
    · rcases hl0 with h1 | hnone
      · exact absurd h1 hp1
      · obtain ⟨Q, rfl⟩ : ∃ Q, P = Q + 1 := ⟨P - 1, by omega⟩
        exact stitchBack_none (by push_cast; omega) hnone
  rw [hback]
  rw [stitchFwd_none hl3' _]
  rfl

/-- The amended stitching theorem holds at a concrete call: document 9,
pages 2-4 all marked as continuations, no page-1 fragment in the table,
page-4 fragment retrieved. -/
theorem C7_witness :
    augment_chunks [c7d] [c7b, c7c, c7d] = [c7d, c7c, c7b] :=
  C7_amended 2 c7b c7c c7d [c7b, c7c, c7d] (by decide) (by decide) (by decide) (by decide)
    (Or.inr (by decide)) (by decide) rfl rfl rfl (by decide) (by decide) (by decide)

/-! ### Non-whitespace content survives the chunker, and every produced chunk
keeps some of it: support for the ingestion idempotence claim -/

lemma mem_squeezeSpaces_of {c : Char} (hc : c ≠ ' ') :
    ∀ {l : List Char}, c ∈ l → c ∈ squeezeSpaces l := by
  intro l
  induction l with
  | nil => intro h; cases h
  | cons a tail ih =>
    intro h
    cases tail with
    | nil =>
      rcases List.mem_cons.mp h with rfl | h2
      · exact List.mem_singleton_self c
      · cases h2
    | cons b rest =>
      rw [squeezeSpaces]
      by_cases hab : (decide (a = ' ') && decide (b = ' ')) = true
      · rw [if_pos hab]
        have ha : a = ' ' := by
          rw [Bool.and_eq_true, decide_eq_true_eq, decide_eq_true_eq] at hab
          exact hab.1
        rcases List.mem_cons.mp h with rfl | h2
        · exact absurd ha hc
        · exact ih h2
      · rw [if_neg hab]
        rcases List.mem_cons.mp h with rfl | h2
        · exact List.mem_cons_self _ _
        · exact List.mem_cons_of_mem _ (ih h2)

lemma head_dropWhile_false {p : Char → Bool} :
    ∀ {l : List Char} {c : Char} {cs : List Char}, l.dropWhile p = c :: cs → p c = false := by
  intro l
  induction l with
  | nil => intro c cs h; simp at h
  | cons a tail ih =>
    intro c cs h
    rw [List.dropWhile_cons] at h
    by_cases hp : p a = true
    · rw [if_pos hp] at h
      exact ih h
    · rw [if_neg hp] at h
      injection h with h1 _
      subst h1
      cases hb : p a
      · rfl
      · exact absurd hb hp

lemma stripL_getLast?_nonws {w : List Char} {c : Char} (h : (stripL w).getLast? = some c) :
    pyWs c = false := by
  rw [stripL, List.getLast?_reverse] at h
  cases hd : ((w.dropWhile pyWs).reverse.dropWhile pyWs) with
  | nil => rw [hd] at h; cases h
  | cons x xs =>
    rw [hd] at h
    injection h with h1
    rw [← h1]
    exact head_dropWhile_false hd

lemma stripL_nonws_of_ne_nil {w : List Char} (h : stripL w ≠ []) :
    ∃ d ∈ stripL w, pyWs d = false := by
  obtain ⟨c, hc⟩ := Option.isSome_iff_exists.mp (List.getLast?_isSome.mpr h)
  exact ⟨c, List.mem_of_getLast?_eq_some hc, stripL_getLast?_nonws hc⟩

lemma normalizeWs_getLast?_nonws {buf : List Char} {c : Char}
    (h : (normalizeWs buf).getLast? = some c) : pyWs c = false := by
  rw [normalizeWs] at h
  exact stripL_getLast?_nonws h

lemma mem_normalizeWs {c : Char} {l : List Char} (hc : c ∈ l) (hnws : pyWs c = false) :
    c ∈ normalizeWs l := by
  have hc' : c ∈ l.map (fun x => if pyWs x then ' ' else x) := by
    refine List.mem_map.mpr ⟨c, hc, ?_⟩
    rw [if_neg (by rw [hnws]; exact Bool.false_ne_true)]
  have hne : c ≠ ' ' := by
    intro h
    rw [h] at hnws
    exact absurd hnws (by decide)
  exact mem_stripL (mem_squeezeSpaces_of hne hc') hnws

/-- A buffer holding any non-whitespace character yields at least one chunk. -/
lemma chunker_ne_nil {buf : List Char} {c : Char} (hc : c ∈ buf) (hnws : pyWs c = false) :
    semantic_sliding_window_chunker buf 1000 200 ≠ [] := by
  have hbuf : buf ≠ [] := List.ne_nil_of_mem hc
  rw [semantic_sliding_window_chunker, if_neg hbuf]
  have hmem : c ∈ normalizeWs buf := mem_normalizeWs hc hnws
  obtain ⟨i, hgi⟩ := List.mem_iff_get.mp hmem
  have hne : (normalizeWs buf).get ⟨i.1, i.2⟩ ≠ ' ' := by
    rw [show (⟨i.1, i.2⟩ : Fin (normalizeWs buf).length) = i from rfl, hgi]
    intro h
    rw [h] at hnws
    exact absurd hnws (by decide)
  obtain ⟨ch, hch, _⟩ := @swcLoop_covers (normalizeWs buf) 1000 200 (by decide)
    (fun d hd hw => normalizeWs_ws_eq_space hd hw)
    ((normalizeWs buf).length + 1) 0 i.1 (Nat.zero_le _) i.2 (by omega) hne
  exact List.ne_nil_of_mem hch

/-- Every chunk the loop produces keeps a non-whitespace character: the tail
chunk ends at the text's stripped end, and every other chunk survives its own
strip call. -/
lemma swcLoop_nonws {t : List Char} (ht : ∀ c, t.getLast? = some c → pyWs c = false)
    (csz ov : Nat) :
    ∀ (fuel s : Nat) (ch : List Char), ch ∈ swcLoop t t.length csz ov s fuel →
      ∃ d ∈ ch, pyWs d = false := by
  intro fuel
  induction fuel with
  | zero =>
    intro s ch h
    simp [swcLoop] at h
  | succ fuel ih =>
    intro s ch h
    rw [swcLoop] at h
    by_cases hs : s < t.length
    · rw [if_pos hs] at h
      by_cases he : t.length ≤ s + csz
      · rw [if_pos he] at h
        rcases List.mem_singleton.mp h with rfl
        have htne : t ≠ [] := by
          intro h0
          rw [h0] at hs
          simp at hs
        obtain ⟨c, hc⟩ := Option.isSome_iff_exists.mp (List.getLast?_isSome.mpr htne)
        refine ⟨c, ?_, ht c hc⟩
        have hcg : t.getLast htne = c := by
          rw [List.getLast?_eq_getLast_of_ne_nil htne] at hc
          injection hc
        have hget : t.get ⟨t.length - 1, by omega⟩ = c := by
          rw [← hcg, List.getLast_eq_get]
        rw [← hget]
        exact get_mem_drop (by omega) _
      · rw [if_neg he] at h
        by_cases hch : stripL ((t.drop s).take (swcChunkEnd t csz s (s + csz) - s)) = []
        · rw [if_pos hch] at h
          exact ih _ _ h
        · rw [if_neg hch] at h
          rcases List.mem_cons.mp h with rfl | h2
          · exact stripL_nonws_of_ne_nil hch
          · exact ih _ _ h2
    · rw [if_neg hs] at h
      cases h

lemma chunker_chunk_nonws {buf ch : List Char}
    (h : ch ∈ semantic_sliding_window_chunker buf 1000 200) : ∃ d ∈ ch, pyWs d = false := by
  by_cases hbuf : buf = []
  · rw [semantic_sliding_window_chunker, if_pos hbuf] at h
    cases h
  · rw [semantic_sliding_window_chunker, if_neg hbuf] at h
    exact swcLoop_nonws (fun c hc => normalizeWs_getLast?_nonws hc) 1000 200 _ _ _ h

/-! ### Shape of the ingestion loop state -/

lemma maxNat?_ge_of_mem {x : Nat} :
    ∀ {l : List Nat}, x ∈ l → ∃ m, maxNat? l = some m ∧ x ≤ m := by
  intro l
  induction l with
  | nil => intro h; cases h
  | cons n ns ih =>
    intro h
    rw [maxNat?]
    rcases List.mem_cons.mp h with rfl | h2
    · cases hm : maxNat? ns with
      | none => exact ⟨x, rfl, le_rfl⟩
      | some m => exact ⟨max x m, rfl, le_max_left _ _⟩
    · obtain ⟨m, hm, hxm⟩ := ih h2
      rw [hm]
      exact ⟨max n m, rfl, le_trans hxm (le_max_right _ _)⟩

lemma lastChunkPage_ge {db : Db} {did : Nat} {c : ChunkRec} (hc : c ∈ db.chunks)
    (hd : c.docId = did) : ∃ m, lastChunkPage db did = some m ∧ c.pageNumber ≤ m := by
  rw [lastChunkPage]
  refine maxNat?_ge_of_mem (List.mem_map_of_mem _ (List.mem_filter.mpr ⟨hc, ?_⟩))
  simp [hd]

lemma ensureDoc_docId (st : ChunkState) (h : List (List Char)) (tp : Nat) :
    (ensureDoc st h tp).docId = st.docId := by
  rw [ensureDoc]
  by_cases ha : st.docAdded = true
  · rw [if_pos ha]
  · rw [if_neg ha]

lemma ensureDoc_added (st : ChunkState) (h : List (List Char)) (tp : Nat) :
    (ensureDoc st h tp).docAdded = true := by
  rw [ensureDoc]
  by_cases ha : st.docAdded = true
  · rw [if_pos ha]; exact ha
  · rw [if_neg ha]

lemma ensureDoc_buffer (st : ChunkState) (h : List (List Char)) (tp : Nat) :
    (ensureDoc st h tp).buffer = st.buffer := by
  rw [ensureDoc]
  by_cases ha : st.docAdded = true
  · rw [if_pos ha]
  · rw [if_neg ha]

lemma ensureDoc_docs (st : ChunkState) (h : List (List Char)) (tp : Nat) :
    (st.docAdded = true ∧ (ensureDoc st h tp).db.docs = st.db.docs) ∨
      (st.docAdded = false ∧
        (ensureDoc st h tp).db.docs = st.db.docs ++ [⟨st.docId, h, tp⟩]) := by
  by_cases ha : st.docAdded = true
  · rw [ensureDoc, if_pos ha]
    exact Or.inl ⟨ha, rfl⟩
  · rw [ensureDoc, if_neg ha]
    have hf : st.docAdded = false := by
      cases hb : st.docAdded
      · rfl
      · exact absurd hb ha
    exact Or.inr ⟨hf, rfl⟩

lemma stepTextFlush_docId (st : ChunkState) (pr : Nat × List Char) :
    ∀ ob, (stepTextFlush st pr ob).docId = st.docId
  | none => rfl
  | some _ => rfl

lemma stepTextFlush_added (st : ChunkState) (pr : Nat × List Char) :
    ∀ ob, (stepTextFlush st pr ob).docAdded = st.docAdded
  | none => rfl
  | some _ => rfl

lemma stepTextFlush_docs (st : ChunkState) (pr : Nat × List Char) :
    ∀ ob, (stepTextFlush st pr ob).db.docs = st.db.docs
  | none => rfl
  | some _ => rfl

lemma stepBody_docId (st : ChunkState) (pr : Nat × List Char) :
    (stepBody st pr).docId = st.docId := by
  rw [stepBody]
  by_cases hb : (detect_table_page pr.2 pr.1).1 = true
  · rw [if_pos hb]; rfl
  · rw [if_neg hb, stepText]
    by_cases hl : 5000 < (st.buffer ++ ' ' :: clean_text_for_rag pr.2).length
    · rw [if_pos hl]; exact stepTextFlush_docId st pr _
    · rw [if_neg hl]

lemma stepBody_added (st : ChunkState) (pr : Nat × List Char) :
    (stepBody st pr).docAdded = st.docAdded := by
  rw [stepBody]
  by_cases hb : (detect_table_page pr.2 pr.1).1 = true
  · rw [if_pos hb]; rfl
  · rw [if_neg hb, stepText]
    by_cases hl : 5000 < (st.buffer ++ ' ' :: clean_text_for_rag pr.2).length
    · rw [if_pos hl]; exact stepTextFlush_added st pr _
    · rw [if_neg hl]

lemma stepBody_docs (st : ChunkState) (pr : Nat × List Char) :
    (stepBody st pr).db.docs = st.db.docs := by
  rw [stepBody]
  by_cases hb : (detect_table_page pr.2 pr.1).1 = true
  · rw [if_pos hb]; rfl
  · rw [if_neg hb, stepText]
    by_cases hl : 5000 < (st.buffer ++ ' ' :: clean_text_for_rag pr.2).length
    · rw [if_pos hl]; exact stepTextFlush_docs st pr _
    · rw [if_neg hl]

lemma stepPage_shape (h : List (List Char)) (tp sp : Nat) (st : ChunkState)
    (pr : Nat × List Char) :
    (stepPage h tp sp st pr).docId = st.docId ∧
      (((stepPage h tp sp st pr).db.docs = st.db.docs ∧
          (stepPage h tp sp st pr).docAdded = st.docAdded) ∨
        ((stepPage h tp sp st pr).db.docs = st.db.docs ++ [⟨st.docId, h, tp⟩] ∧
          (stepPage h tp sp st pr).docAdded = true ∧ st.docAdded = false)) := by
  rw [stepPage]
  by_cases h1 : pr.1 < sp
  · rw [if_pos h1]
    exact ⟨rfl, Or.inl ⟨rfl, rfl⟩⟩
  · rw [if_neg h1]
    by_cases h2 : (detect_table_page pr.2 pr.1).2 = "excluded_page"
    · rw [if_pos h2]
      exact ⟨rfl, Or.inl ⟨rfl, rfl⟩⟩
    · rw [if_neg h2]
      refine ⟨by rw [stepBody_docId, ensureDoc_docId], ?_⟩
      rcases ensureDoc_docs st h tp with ⟨ha, hd⟩ | ⟨ha, hd⟩
      · exact Or.inl ⟨by rw [stepBody_docs, hd], by rw [stepBody_added, ensureDoc_added, ha]⟩
      · exact Or.inr ⟨by rw [stepBody_docs, hd], by rw [stepBody_added, ensureDoc_added], ha⟩

lemma foldSteps_shape (h : List (List Char)) (tp sp : Nat) :
    ∀ (l : List (Nat × List Char)) (st : ChunkState),
      (l.foldl (stepPage h tp sp) st).docId = st.docId ∧
        (((l.foldl (stepPage h tp sp) st).db.docs = st.db.docs ∧
            (l.foldl (stepPage h tp sp) st).docAdded = st.docAdded) ∨
          ((l.foldl (stepPage h tp sp) st).db.docs = st.db.docs ++ [⟨st.docId, h, tp⟩] ∧
            (l.foldl (stepPage h tp sp) st).docAdded = true ∧ st.docAdded = false)) := by
  intro l
  induction l with
  | nil => intro st; exact ⟨rfl, Or.inl ⟨rfl, rfl⟩⟩
  | cons p l ih =>
    intro st
    rw [List.foldl_cons]
    obtain ⟨hid1, hsh1⟩ := stepPage_shape h tp sp st p
    obtain ⟨hid2, hsh2⟩ := ih (stepPage h tp sp st p)
    refine ⟨by rw [hid2, hid1], ?_⟩
    rcases hsh1 with ⟨hd1, ha1⟩ | ⟨hd1, ha1, ha1'⟩
    · rcases hsh2 with ⟨hd2, ha2⟩ | ⟨hd2, ha2, ha2'⟩
      · exact Or.inl ⟨by rw [hd2, hd1], by rw [ha2, ha1]⟩
      · exact Or.inr ⟨by rw [hd2, hd1, hid1], ha2, by rw [← ha1]; exact ha2'⟩
    · rcases hsh2 with ⟨hd2, ha2⟩ | ⟨hd2, ha2, ha2'⟩
      · exact Or.inr ⟨by rw [hd2, hd1], by rw [ha2, ha1], ha1'⟩
      · rw [ha1] at ha2'
        cases ha2'

/-- Processing the final page, when it is a non-excluded text page with
non-whitespace content, leaves that content (or the kept overlap chunk) in the
buffer and guarantees the document row exists. -/
lemma stepPage_last (h : List (List Char)) (tp sp : Nat) (lp : List Char) (st : ChunkState)
    (hsp : sp ≤ tp)
    (hex : ¬ (detect_table_page lp tp).2 = "excluded_page")
    (htab : (detect_table_page lp tp).1 = false)
    (hchar : ∃ c ∈ clean_text_for_rag lp, pyWs c = false) :
    (∃ d ∈ (stepPage h tp sp st (tp, lp)).buffer, pyWs d = false) ∧
      (stepPage h tp sp st (tp, lp)).docAdded = true := by
  obtain ⟨c, hcc, hcw⟩ := hchar
  simp only [stepPage, stepBody, stepText]
  rw [if_neg (show ¬ tp < sp by omega), if_neg hex,
    if_neg (show ¬ (detect_table_page lp tp).1 = true by rw [htab]; exact Bool.false_ne_true)]
  by_cases hl : 5000 < ((ensureDoc st h tp).buffer ++ ' ' :: clean_text_for_rag lp).length
  · rw [if_pos hl]
    cases hg : (semantic_sliding_window_chunker
        ((ensureDoc st h tp).buffer ++ ' ' :: clean_text_for_rag lp) 1000 200).getLast? with
    | none =>
      rw [stepTextFlush]
      exact ⟨⟨c, List.mem_append_right _ (List.mem_cons_of_mem _ hcc), hcw⟩,
        ensureDoc_added st h tp⟩
    | some lc =>
      rw [stepTextFlush]
      obtain ⟨d, hd, hdw⟩ := chunker_chunk_nonws (List.mem_of_getLast?_eq_some hg)
      exact ⟨⟨d, hd, hdw⟩, ensureDoc_added st h tp⟩
  · rw [if_neg hl]
    exact ⟨⟨c, List.mem_append_right _ (List.mem_cons_of_mem _ hcc), hcw⟩,
      ensureDoc_added st h tp⟩

lemma enumerate1_concat {pages ps : List (List Char)} {lp : List Char}
    (hps : pages = ps ++ [lp]) :
    enumerate1 pages = (List.range' 1 ps.length).zip ps ++ [(pages.length, lp)] := by
  have hlen : pages.length = ps.length + 1 := by rw [hps]; simp
  rw [enumerate1, hps, show (ps ++ [lp]).length = ps.length + 1 from by simp,
    List.range'_concat, List.zip_append (by simp)]
  rw [show ([1 + 1 * ps.length].zip [lp]) = [(1 + 1 * ps.length, lp)] from rfl,
    show 1 + 1 * ps.length = ps.length + 1 from by omega, ← hlen, hps]

lemma runChunking_split {file : PdfFile} {ps : List (List Char)} {lp : List Char}
    (hps : file.pages = ps ++ [lp]) (db : Db) (docId : Nat) (docAdded : Bool)
    (startPage : Nat) :
    runChunking file db docId docAdded startPage =
      runFlush file.pages.length
        (stepPage file.pages file.pages.length startPage
          (((List.range' 1 ps.length).zip ps).foldl
            (stepPage file.pages file.pages.length startPage)
            ⟨db, docAdded, docId, [], startPage⟩)
          (file.pages.length, lp)) := by
  rw [runChunking, enumerate1_concat hps, List.foldl_append, List.foldl_cons, List.foldl_nil]

/-- A run whose final page is a kept text page with real content always ends
in success, stores a fragment at page total_pages for the processed document,
and changes the document table only by adding the new row when there was
none. -/
lemma runChunking_complete {file : PdfFile} {lp : List Char} (db : Db) (docId : Nat)
    (docAdded : Bool) (startPage : Nat)
    (hle : startPage ≤ file.pages.length)
    (hlp : file.pages.getLast? = some lp)
    (hex : ¬ (detect_table_page lp file.pages.length).2 = "excluded_page")
    (htab : (detect_table_page lp file.pages.length).1 = false)
    (hchar : ∃ c ∈ clean_text_for_rag lp, pyWs c = false) :
    (runChunking file db docId docAdded startPage).2 = PdfStatus.success ∧
      (∃ ch ∈ (runChunking file db docId docAdded startPage).1.chunks,
        ch.docId = docId ∧ ch.pageNumber = file.pages.length) ∧
      (docAdded = true → (runChunking file db docId docAdded startPage).1.docs = db.docs) ∧
      (docAdded = false → (runChunking file db docId docAdded startPage).1.docs =
        db.docs ++ [⟨docId, file.pages, file.pages.length⟩]) := by
  obtain ⟨ps, hps⟩ := List.getLast?_eq_some_iff.mp hlp
  rw [runChunking_split hps]
  set stf := ((List.range' 1 ps.length).zip ps).foldl
    (stepPage file.pages file.pages.length startPage)
    (⟨db, docAdded, docId, [], startPage⟩ : ChunkState) with hstf
  have hfront := foldSteps_shape file.pages file.pages.length startPage
    ((List.range' 1 ps.length).zip ps) ⟨db, docAdded, docId, [], startPage⟩
  rw [← hstf] at hfront
  have hfid : stf.docId = docId := hfront.1
  have hlast := stepPage_last file.pages file.pages.length startPage lp stf hle hex htab hchar
  have hlsh := stepPage_shape file.pages file.pages.length startPage stf
    (file.pages.length, lp)
  have hfull := foldSteps_shape file.pages file.pages.length startPage
    (((List.range' 1 ps.length).zip ps) ++ [(file.pages.length, lp)])
    ⟨db, docAdded, docId, [], startPage⟩
  rw [List.foldl_append, List.foldl_cons, List.foldl_nil, ← hstf] at hfull
  set st1 := stepPage file.pages file.pages.length startPage stf (file.pages.length, lp)
    with hst1
  obtain ⟨⟨d, hdmem, hdnws⟩, hadded⟩ := hlast
  have hbne : st1.buffer ≠ [] := List.ne_nil_of_mem hdmem
  rw [runFlush, if_neg hbne]
  refine ⟨rfl, ?_, ?_, ?_⟩
  · obtain ⟨content, hcontent⟩ :=
      List.exists_mem_of_ne_nil _ (chunker_ne_nil hdmem hdnws)
    refine ⟨ChunkRec.mk st1.docId file.pages.length content "text", ?_, ?_, rfl⟩
    · exact List.mem_append_right _ (List.mem_map_of_mem _ hcontent)
    · show st1.docId = docId
      rw [hlsh.1]
      exact hfid
  · intro hT
    rcases hfull.2 with ⟨hd, _⟩ | ⟨_, _, hfalse⟩
    · exact hd
    · have hF : docAdded = false := hfalse
      rw [hT] at hF
      cases hF
  · intro hF
    rcases hfull.2 with ⟨_, ha⟩ | ⟨hd, _, _⟩
    · have h1 : st1.docAdded = docAdded := ha
      rw [hadded, hF] at h1
      cases h1
    · exact hd

/-- Claim C1 (counterexample to the original wording): a file whose single
page is a navigation page (here the DAFTAR ISI heading, excluded by the
detector) completes its first run with status success while storing neither a
document row nor any fragment, so the byte-identical second run takes the
identical path and again reports success — never skipped — although the first
run had completed successfully. -/
theorem C1_counterexample :
    process_and_save_pdf ⟨[pys "DAFTAR ISI"]⟩ ⟨[], [], 0⟩ =
        (⟨[], [], 0⟩, PdfStatus.success) ∧
      process_and_save_pdf ⟨[pys "DAFTAR ISI"]⟩
          (process_and_save_pdf ⟨[pys "DAFTAR ISI"]⟩ ⟨[], [], 0⟩).1 =
        (⟨[], [], 0⟩, PdfStatus.success) ∧
      PdfStatus.success ≠ PdfStatus.skipped := by
  refine ⟨by decide, by decide, by decide⟩

/-- Claim C1 (amended): ingestion is idempotent whenever the file's last page
is a kept text page with non-whitespace content — then the first run (from any
database state) leaves the stored last-chunk page at total_pages, and the
byte-identical second run changes nothing and reports skipped.  Without a
condition of this kind the final page can be excluded, the completion marker
is never written, and the second run repeats the work reporting success (see
the counterexample). -/
theorem C1_amended (file : PdfFile) (db0 : Db) (lp : List Char)
    (hlp : file.pages.getLast? = some lp)
    (hex : ¬ (detect_table_page lp file.pages.length).2 = "excluded_page")
    (htab : (detect_table_page lp file.pages.length).1 = false)
    (hchar : ∃ c ∈ clean_text_for_rag lp, pyWs c = false) :
    process_and_save_pdf file (process_and_save_pdf file db0).1 =
      ((process_and_save_pdf file db0).1, PdfStatus.skipped) := by
  have hne : file.pages ≠ [] := by
    intro h0
    rw [h0] at hlp
    cases hlp
  have hpos : 1 ≤ file.pages.length := List.length_pos.mpr hne
  cases hf : findDoc db0 file.pages with
  | some d =>
    have hf' : db0.docs.find? (fun x => x.hash = file.pages) = some d := hf
    have key : ∀ sp : Nat, sp ≤ file.pages.length →
        process_and_save_pdf file (runChunking file db0 d.id true sp).1 =
          ((runChunking file db0 d.id true sp).1, PdfStatus.skipped) := by
      intro sp hsple
      obtain ⟨hsucc, ⟨ch, hch, hchdoc, hchpage⟩, hdocsT, _⟩ :=
        runChunking_complete db0 d.id true sp hsple hlp hex htab hchar
      have hfind1 : findDoc (runChunking file db0 d.id true sp).1 file.pages = some d := by
        rw [findDoc, hdocsT rfl]
        exact hf'
      obtain ⟨m, hm, hmle⟩ := lastChunkPage_ge hch hchdoc
      rw [process_and_save_pdf, hfind1, processFound, hm, processResume,
        if_pos (show file.pages.length ≤ m by omega)]
    cases hl : lastChunkPage db0 d.id with
    | some p =>
      by_cases hskip : file.pages.length ≤ p
      · have h1 : process_and_save_pdf file db0 = (db0, PdfStatus.skipped) := by
          rw [process_and_save_pdf, hf, processFound, hl, processResume, if_pos hskip]
        rw [h1]
        exact h1
      · have h1 : process_and_save_pdf file db0 =
            runChunking file db0 d.id true (p + 1) := by
          rw [process_and_save_pdf, hf, processFound, hl, processResume, if_neg hskip]
        rw [h1]
        exact key (p + 1) (by omega)
    | none =>
      have h1 : process_and_save_pdf file db0 = runChunking file db0 d.id true 1 := by
        rw [process_and_save_pdf, hf, processFound, hl, processResume]
      rw [h1]
      exact key 1 hpos
  | none =>
    have hf' : db0.docs.find? (fun x => x.hash = file.pages) = none := hf
    have h1 : process_and_save_pdf file db0 =
        runChunking file db0 db0.nextId false 1 := by
      rw [process_and_save_pdf, hf, processFound]
    obtain ⟨hsucc, ⟨ch, hch, hchdoc, hchpage⟩, _, hdocsF⟩ :=
      runChunking_complete db0 db0.nextId false 1 hpos hlp hex htab hchar
    have hdocs1 : (runChunking file db0 db0.nextId false 1).1.docs =
        db0.docs ++ [⟨db0.nextId, file.pages, file.pages.length⟩] := hdocsF rfl
    have hfind1 : findDoc (runChunking file db0 db0.nextId false 1).1 file.pages =
        some ⟨db0.nextId, file.pages, file.pages.length⟩ := by
      rw [findDoc, hdocs1, List.find?_append, hf', Option.none_or]
      rw [List.find?_cons_of_pos _ (by simp)]
    obtain ⟨m, hm, hmle⟩ := lastChunkPage_ge hch hchdoc
    rw [h1, process_and_save_pdf, hfind1, processFound,
      show (⟨db0.nextId, file.pages, file.pages.length⟩ : PdfDocRec).id = db0.nextId from rfl,
      hm, processResume, if_pos (show file.pages.length ≤ m by omega)]

/-- The amended idempotence theorem holds at a concrete call: a two-page file
whose second page is a long plain-text page; the first run stores its text at
page two and the second run is skipped without touching the database. -/
theorem C1_witness :
    process_and_save_pdf
        ⟨[pys "Hasil survei menunjukkan peningkatan produksi padi tahun ini.",
          pys "Hasil survei menunjukkan peningkatan produksi padi tahun ini."]⟩
        (process_and_save_pdf
          ⟨[pys "Hasil survei menunjukkan peningkatan produksi padi tahun ini.",
            pys "Hasil survei menunjukkan peningkatan produksi padi tahun ini."]⟩
          ⟨[], [], 0⟩).1 =
      ((process_and_save_pdf
          ⟨[pys "Hasil survei menunjukkan peningkatan produksi padi tahun ini.",
            pys "Hasil survei menunjukkan peningkatan produksi padi tahun ini."]⟩
          ⟨[], [], 0⟩).1, PdfStatus.skipped) :=
  C1_amended
    ⟨[pys "Hasil survei menunjukkan peningkatan produksi padi tahun ini.",
      pys "Hasil survei menunjukkan peningkatan produksi padi tahun ini."]⟩
    ⟨[], [], 0⟩ (pys "Hasil survei menunjukkan peningkatan produksi padi tahun ini.")
    (by decide) (by decide) (by decide) (by decide)

end BpsAi
